import Mathlib

/-!
# The domain form controller of the registrar console

A shallow embedding of `java/google/registry/ui/js/registrar/domain.js`
(`registry.registrar.Domain`) and the properties its specification states.

The controller works on plain JavaScript values: the object tree that the XML
conversion builds from an EPP response, and the object tree that the form
parser builds from the submitted form. Values are modelled as trees
(`JsVal`); the heap is not modelled, so an object that the source reaches
under two names is updated at both places (see `writeItem`) and a variable
that holds an object follows the state of that object (see `liveForm`).

Conventions of the model:

* the file has no strict-mode directive, so an assignment to a property of a
  primitive is ignored and a read of a property of `undefined` or `null`
  throws a `TypeError`;
* properties are own properties: no property name that the file reads is a
  member of `Object.prototype`, `Array.prototype` or `String.prototype`, no
  own property of a value hides such a member, and the values are data (no
  functions, no accessors);
* numbers occur only as lengths and as the literal `0`, so they are integers.
-/

namespace Nomulus

/-! ## Values -/

/-- JavaScript values: an array carries its elements and the named properties
that were assigned to it; an object carries its own properties in insertion
order. -/
inductive JsVal where
  | undefined : JsVal
  | null : JsVal
  | bool (b : Bool) : JsVal
  | num (n : Int) : JsVal
  | str (s : String) : JsVal
  | arr (elems : List JsVal) (props : List (String × JsVal)) : JsVal
  | obj (props : List (String × JsVal)) : JsVal
  deriving Inhabited

mutual
/-- Equality of values is decidable. -/
def JsVal.decEq : (a b : JsVal) → Decidable (a = b)
  | .undefined, .undefined => isTrue rfl
  | .null, .null => isTrue rfl
  | .bool a, .bool b =>
    if h : a = b then isTrue (by rw [h]) else isFalse (by intro e; cases e; exact h rfl)
  | .num a, .num b =>
    if h : a = b then isTrue (by rw [h]) else isFalse (by intro e; cases e; exact h rfl)
  | .str a, .str b =>
    if h : a = b then isTrue (by rw [h]) else isFalse (by intro e; cases e; exact h rfl)
  | .arr xs ps, .arr ys qs =>
    match JsVal.decEqList xs ys, JsVal.decEqProps ps qs with
    | isTrue h1, isTrue h2 => isTrue (by rw [h1, h2])
    | isFalse h1, _ => isFalse (by intro e; cases e; exact h1 rfl)
    | _, isFalse h2 => isFalse (by intro e; cases e; exact h2 rfl)
  | .obj ps, .obj qs =>
    match JsVal.decEqProps ps qs with
    | isTrue h => isTrue (by rw [h])
    | isFalse h => isFalse (by intro e; cases e; exact h rfl)
  | .undefined, .null | .undefined, .bool _ | .undefined, .num _ | .undefined, .str _
  | .undefined, .arr _ _ | .undefined, .obj _ => isFalse (by intro e; cases e)
  | .null, .undefined | .null, .bool _ | .null, .num _ | .null, .str _
  | .null, .arr _ _ | .null, .obj _ => isFalse (by intro e; cases e)
  | .bool _, .undefined | .bool _, .null | .bool _, .num _ | .bool _, .str _
  | .bool _, .arr _ _ | .bool _, .obj _ => isFalse (by intro e; cases e)
  | .num _, .undefined | .num _, .null | .num _, .bool _ | .num _, .str _
  | .num _, .arr _ _ | .num _, .obj _ => isFalse (by intro e; cases e)
  | .str _, .undefined | .str _, .null | .str _, .bool _ | .str _, .num _
  | .str _, .arr _ _ | .str _, .obj _ => isFalse (by intro e; cases e)
  | .arr _ _, .undefined | .arr _ _, .null | .arr _ _, .bool _ | .arr _ _, .num _
  | .arr _ _, .str _ | .arr _ _, .obj _ => isFalse (by intro e; cases e)
  | .obj _, .undefined | .obj _, .null | .obj _, .bool _ | .obj _, .num _
  | .obj _, .str _ | .obj _, .arr _ _ => isFalse (by intro e; cases e)
/-- Equality of element lists is decidable. -/
def JsVal.decEqList : (a b : List JsVal) → Decidable (a = b)
  | [], [] => isTrue rfl
  | [], _ :: _ => isFalse (by intro e; cases e)
  | _ :: _, [] => isFalse (by intro e; cases e)
  | x :: xs, y :: ys =>
    match JsVal.decEq x y, JsVal.decEqList xs ys with
    | isTrue h1, isTrue h2 => isTrue (by rw [h1, h2])
    | isFalse h1, _ => isFalse (by intro e; cases e; exact h1 rfl)
    | _, isFalse h2 => isFalse (by intro e; cases e; exact h2 rfl)
/-- Equality of property lists is decidable. -/
def JsVal.decEqProps : (a b : List (String × JsVal)) → Decidable (a = b)
  | [], [] => isTrue rfl
  | [], _ :: _ => isFalse (by intro e; cases e)
  | _ :: _, [] => isFalse (by intro e; cases e)
  | (k, x) :: xs, (l, y) :: ys =>
    if hk : k = l then
      match JsVal.decEq x y, JsVal.decEqProps xs ys with
      | isTrue h1, isTrue h2 => isTrue (by rw [hk, h1, h2])
      | isFalse h1, _ => isFalse (by intro e; cases e; exact h1 rfl)
      | _, isFalse h2 => isFalse (by intro e; cases e; exact h2 rfl)
    else isFalse (by intro e; cases e; exact hk rfl)
end

instance : DecidableEq JsVal := JsVal.decEq

/-- The one runtime error of this file: a `TypeError` from dereferencing
`undefined` or `null` (the "missing-field error" of the specification). -/
inductive JsError where
  | typeError : JsError
  deriving DecidableEq, Inhabited

/-- Outcome of a statement: a value, or the error thrown. -/
abbrev Result (α : Type) : Type := Except JsError α

deriving instance DecidableEq for Except

/-! ## Property names

The file names every property by a string literal. None of them is an array
index and none of the assignments targets `length`, so the model takes its
property names from `Name`, where the two special cases of arrays and strings
cannot arise; `length` is read by `getLength`. -/

/-- A string that is neither `length` nor made of digits only. -/
def isNamed (k : String) : Bool :=
  k != "length" && !(k.data.all Char.isDigit)

/-- Property names: strings that are no array index and not `length`. -/
structure Name where
  text : String
  named : isNamed text = true

namespace Key

/-- Name `epp`. -/
def epp : Name := ⟨"epp", by decide⟩
/-- Name `response`. -/
def response : Name := ⟨"response", by decide⟩
/-- Name `resData`. -/
def resData : Name := ⟨"resData", by decide⟩
/-- Name `domain:infData`. -/
def infData : Name := ⟨"domain:infData", by decide⟩
/-- Name `extension`. -/
def extension : Name := ⟨"extension", by decide⟩
/-- Name `launch:infData`. -/
def launchInfData : Name := ⟨"launch:infData", by decide⟩
/-- Name `mark:mark`. -/
def mark : Name := ⟨"mark:mark", by decide⟩
/-- Name `item`. -/
def item : Name := ⟨"item", by decide⟩
/-- Name `domain:ns`. -/
def ns : Name := ⟨"domain:ns", by decide⟩
/-- Name `domain:hostObj`. -/
def hostObj : Name := ⟨"domain:hostObj", by decide⟩
/-- Name `domain:contact`. -/
def contact : Name := ⟨"domain:contact", by decide⟩
/-- Name `domain:name`. -/
def name : Name := ⟨"domain:name", by decide⟩
/-- Name `domain:period`. -/
def period : Name := ⟨"domain:period", by decide⟩
/-- Name `smd:encodedSignedMark`. -/
def signedMark : Name := ⟨"smd:encodedSignedMark", by decide⟩
/-- Name `nextId`. -/
def nextId : Name := ⟨"nextId", by decide⟩
/-- Name `contact`, a category of `typeCounts`. -/
def contactCount : Name := ⟨"contact", by decide⟩
/-- Name `host`, a category of `typeCounts`. -/
def hostCount : Name := ⟨"host", by decide⟩

end Key

/-! ## Property lists -/

/-- Value bound to `k` in a property list, `undefined` when there is none. -/
def lookupProp (k : String) : List (String × JsVal) → JsVal
  | [] => .undefined
  | (k', v) :: rest => if k' = k then v else lookupProp k rest

/-- Bind `k` to `v`: in place when `k` is bound, at the end otherwise. -/
def storeProp (k : String) (v : JsVal) : List (String × JsVal) → List (String × JsVal)
  | [] => [(k, v)]
  | (k', v') :: rest => if k' = k then (k, v) :: rest else (k', v') :: storeProp k v rest

/-- Remove every binding of `k`. -/
def eraseProp (k : String) : List (String × JsVal) → List (String × JsVal)
  | [] => []
  | (k', v') :: rest => if k' = k then eraseProp k rest else (k', v') :: eraseProp k rest

/-- Whether `k` is bound in a property list. -/
def boundIn (k : String) : List (String × JsVal) → Bool
  | [] => false
  | (k', _) :: rest => if k' = k then true else boundIn k rest

/-! ## The operations of the language that the file uses -/

/-- Whether a value is `undefined` or `null`. -/
def nullish : JsVal → Bool
  | .undefined => true
  | .null => true
  | _ => false

/-- Truthiness, the test of `if (v)`, `v && w` and `v ? a : b`. -/
def truthy : JsVal → Bool
  | .undefined => false
  | .null => false
  | .bool b => b
  | .num n => n != 0
  | .str s => s != ""
  | .arr _ _ => true
  | .obj _ => true

/-- Test `goog.isArray(v)`. -/
def isArray : JsVal → Bool
  | .arr _ _ => true
  | _ => false

/-- Whether a value is a number. -/
def isNumber : JsVal → Bool
  | .num _ => true
  | _ => false

/-- Whether a value has the own property `k`. -/
def hasOwn (v : JsVal) (k : Name) : Bool :=
  match v with
  | .obj ps => boundIn k.text ps
  | .arr _ ps => boundIn k.text ps
  | _ => false

/-- Own property names of a value, in order. -/
def ownNames : JsVal → List String
  | .obj ps => ps.map Prod.fst
  | .arr _ ps => ps.map Prod.fst
  | _ => []

/-- Read `v[k]`. -/
def getProp (v : JsVal) (k : Name) : Result JsVal :=
  match v with
  | .undefined => .error .typeError
  | .null => .error .typeError
  | .obj ps => .ok (lookupProp k.text ps)
  | .arr _ ps => .ok (lookupProp k.text ps)
  | _ => .ok .undefined

/-- Number of UTF-16 code units of a string. -/
def utf16Length (s : String) : Nat :=
  (s.data.map (fun c => if c.toNat < 65536 then 1 else 2)).sum

/-- Read `v.length`. -/
def getLength (v : JsVal) : Result JsVal :=
  match v with
  | .undefined => .error .typeError
  | .null => .error .typeError
  | .arr xs _ => .ok (.num xs.length)
  | .str s => .ok (.num (utf16Length s))
  | .obj ps => .ok (lookupProp "length" ps)
  | _ => .ok .undefined

/-- Assignment `v[k] = x`, giving the new state of `v`. -/
def setProp (v : JsVal) (k : Name) (x : JsVal) : Result JsVal :=
  match v with
  | .undefined => .error .typeError
  | .null => .error .typeError
  | .obj ps => .ok (.obj (storeProp k.text x ps))
  | .arr xs ps => .ok (.arr xs (storeProp k.text x ps))
  | w => .ok w

/-- Statement `delete v[k]`, giving the new state of `v`. -/
def deleteProp (v : JsVal) (k : Name) : Result JsVal :=
  match v with
  | .undefined => .error .typeError
  | .null => .error .typeError
  | .obj ps => .ok (.obj (eraseProp k.text ps))
  | .arr xs ps => .ok (.arr xs (eraseProp k.text ps))
  | w => .ok w

/-- Read `v[k1][k2]...[kn]`. -/
def readPath (v : JsVal) : List Name → Result JsVal
  | [] => .ok v
  | k :: ks =>
    match getProp v k with
    | .ok w => readPath w ks
    | .error e => .error e

/-- Assignment `v[k1]...[kn] = x`, giving the new state of `v`: the object
`v[k1]...[kn-1]` is changed in place, so the change shows in `v`. -/
def writePath (v : JsVal) : List Name → JsVal → Result JsVal
  | [], x => .ok x
  | k :: ks, x =>
    match getProp v k with
    | .ok w =>
      match writePath w ks x with
      | .ok w' => setProp v k w'
      | .error e => .error e
    | .error e => .error e

mutual
/-- Whether `Array.prototype.join` of these elements gives the empty string. -/
def joinIsEmpty : List JsVal → Bool
  | [] => true
  | [x] => elementIsEmpty x
  | _ :: _ :: _ => false
/-- Whether an array element contributes the empty string to `join`. -/
def elementIsEmpty : JsVal → Bool
  | .undefined => true
  | .null => true
  | .str s => s == ""
  | .arr xs _ => joinIsEmpty xs
  | _ => false
end

/-- Comparison `v == ''`, the loose equality of the language: a number or a
boolean is compared as a number with `0`, an array through its `join`. -/
def looseEqEmptyString : JsVal → Bool
  | .undefined => false
  | .null => false
  | .bool b => !b
  | .num n => n == 0
  | .str s => s == ""
  | .arr xs _ => joinIsEmpty xs
  | .obj _ => false

/-! ## Collaborators outside the file -/

/-- Serialiser `goog.json.serialize` of the Closure library: it gives a string
for every value. -/
abbrev Serializer : Type := JsVal → String

/-- A template of `registry.soy.registrar.domainepp` (`create`, `update`): it
renders the request text from the parameters. -/
abbrev Template : Type := JsVal → String

/-- Helper `addRem(sequence, label, params)` of the base component: it is run
for its effect on `params`, whose new state it gives here, or it throws. -/
abbrev AddRem : Type := JsVal → String → JsVal → Result JsVal

/-- One invocation `this.addRem(seq, label, params)`. -/
structure Call where
  seq : JsVal
  label : String
  deriving DecidableEq

/-- Statements that may throw and that invoke `addRem`: the invocations so far
go in, and come out extended, together with the outcome. -/
def Eff (α : Type) : Type := List Call → List Call × Result α

/-- A statement that gives `a` and invokes nothing. -/
def Eff.pure {α : Type} (a : α) : Eff α :=
  fun log => (log, .ok a)

/-- Sequencing: what follows a throw is not run. -/
def Eff.bind {α β : Type} (x : Eff α) (f : α → Eff β) : Eff β :=
  fun log =>
    match x log with
    | (log', .ok a) => f a log'
    | (log', .error e) => (log', .error e)

instance : Monad Eff where
  pure := Eff.pure
  bind := Eff.bind

/-- A statement that invokes nothing. -/
def Eff.lift {α : Type} (x : Result α) : Eff α :=
  fun log => (log, x)

/-- Statement `this.addRem(seq, label, params)`. -/
def Eff.invoke (addRem : AddRem) (seq : JsVal) (label : String) (params : JsVal) : Eff JsVal :=
  fun log => (log ++ [⟨seq, label⟩], addRem seq label params)

/-! ## The controller -/

/-- Method `newModel` (lines 47-50). -/
def newModel : JsVal :=
  .obj [("item", .obj [("domain:period", .str "")])]

/-- Path `['epp']['response']['resData']['domain:infData']` of the model. -/
def itemSource : List Name :=
  [Key.epp, Key.response, Key.resData, Key.infData]

/-- Assignment `this.model.item[k1]...[kn] = x`. After line 69 `model.item`
and `model.epp.response.resData['domain:infData']` are one object, so the
assignment shows under both. -/
def writeItem (model : JsVal) (path : List Name) (x : JsVal) : Result JsVal :=
  match writePath model (Key.item :: path) x with
  | .ok model' => writePath model' (itemSource ++ path) x
  | .error e => .error e

/-- Lines 70-79 of `processItem`: the launch-extension mark of the response is
serialised and attached to the item. -/
def hoistMark (serialize : Serializer) (model : JsVal) : Result JsVal := do
  let extension ← readPath model [Key.epp, Key.response, Key.extension]
  -- line 72: extension && extension['launch:infData']
  let launch ← if truthy extension then getProp extension Key.launchInfData else pure extension
  if truthy launch then do
    let extendedInfData ← getProp extension Key.launchInfData
    let mark ← getProp extendedInfData Key.mark
    if truthy mark then
      writeItem model [Key.mark] (.obj [("keyValue", .str (serialize mark))])
    else pure model
  else pure model

/-- Lines 81-88 of `processItem`: a single host is wrapped into an array. -/
def wrapHostObj (model : JsVal) : Result JsVal := do
  -- lines 82-83: item['domain:ns'] && item['domain:ns']['domain:hostObj']
  let ns ← readPath model [Key.item, Key.ns]
  let host ← if truthy ns then readPath model [Key.item, Key.ns, Key.hostObj] else pure ns
  if truthy host then do
    let hostObj ← readPath model [Key.item, Key.ns, Key.hostObj]
    if !isArray hostObj then
      writeItem model [Key.ns, Key.hostObj] (.arr [hostObj] [])
    else pure model
  else pure model

/-- Method `processItem` (lines 68-89), on `this.model`; it gives the new state
of the model. -/
def processItem (serialize : Serializer) (model : JsVal) : Result JsVal := do
  -- line 69
  let fetched ← readPath model itemSource
  let model ← setProp model Key.item fetched
  let model ← hoistMark serialize model
  wrapHostObj model

/-- Method `setupEditor` (lines 93-125), on `this.typeCounts`; it gives the new
state of the counts. Lines 101-124 hand the DOM to the base component and
register the handlers of the add and remove buttons; they assign no count. -/
def setupEditor (typeCounts objArgs : JsVal) : Result JsVal := do
  -- lines 94-95
  let contact ← readPath objArgs [Key.item, Key.contact]
  let contacts ←
    if truthy contact then do
      getLength (← readPath objArgs [Key.item, Key.contact])
    else pure (.num 0)
  let typeCounts ← setProp typeCounts Key.contactCount contacts
  -- lines 97-99
  let ji ← readPath objArgs [Key.item, Key.ns]
  let host ← if truthy ji then getProp ji Key.hostObj else pure ji
  let hosts ←
    if truthy host then do
      getLength (← getProp ji Key.hostObj)
    else pure (.num 0)
  setProp typeCounts Key.hostCount hosts

/-- Lines 130-137 of `prepareCreate`: the state of `params` that is handed to
the template. -/
def prepareCreateParams (params : JsVal) : Result JsVal := do
  let form ← getProp params Key.item
  let params ← setProp params Key.nextId (← getProp form Key.name)
  if looseEqEmptyString (← getProp form Key.signedMark) then
    -- form is the object params.item
    setProp params Key.item (← deleteProp form Key.signedMark)
  else pure params

/-- Method `prepareCreate` (lines 129-141): the new state of `params` and the
request text. -/
def prepareCreate (create : Template) (params : JsVal) : Result (JsVal × String) := do
  let params ← prepareCreateParams params
  pure (params, create params)

/-- The object that the variable `form` of `prepareUpdate` names, in the state
an `addRem` left it. The variable holds the object `params.item`, which
`addRem` reaches through `params`, so what `addRem` does to that object shows
in `form`; where `addRem` takes `item` out of `params` the variable keeps the
object it has. (`addRem` is taken not to bind `params.item` to another
object.) -/
def liveForm (form params : JsVal) : JsVal :=
  match getProp params Key.item with
  | .ok item => if nullish item then form else item
  | .error _ => form

/-- Lines 151-153 of `prepareUpdate`: the diff of the contacts, under its
guard. -/
def diffContacts (addRem : AddRem) (form params : JsVal) : Eff JsVal := do
  if truthy (← Eff.lift (getProp form Key.contact)) then do
    Eff.invoke addRem (← Eff.lift (getProp form Key.contact)) "Contacts" params
  else pure params

/-- Lines 155-157 of `prepareUpdate`, and again lines 159-161: the diff of the
hosts, under its guard. -/
def diffHosts (addRem : AddRem) (form params : JsVal) : Eff JsVal := do
  -- form['domain:ns'] && form['domain:ns']['domain:hostObj']
  let ns ← Eff.lift (getProp form Key.ns)
  let host ← if truthy ns then Eff.lift (readPath form [Key.ns, Key.hostObj]) else pure ns
  if truthy host then do
    Eff.invoke addRem (← Eff.lift (readPath form [Key.ns, Key.hostObj])) "Hosts" params
  else pure params

/-- Lines 147-162 of `prepareUpdate`: the state of `params` that is handed to
the template. -/
def prepareUpdateParams (addRem : AddRem) (params : JsVal) : Eff JsVal := do
  let form ← Eff.lift (getProp params Key.item)
  let nextId ← Eff.lift (getProp form Key.name)
  let params ← Eff.lift (setProp params Key.nextId nextId)
  -- lines 151-153
  let params ← diffContacts addRem form params
  let form := liveForm form params
  -- lines 155-157
  let params ← diffHosts addRem form params
  let form := liveForm form params
  -- lines 159-161
  let params ← diffHosts addRem form params
  let form := liveForm form params
  -- line 162
  Eff.invoke addRem (← Eff.lift (getProp form Key.contact)) "Contacts" params

/-- Method `prepareUpdate` (lines 145-167), started with no invocation made:
the invocations of `addRem`, and the new state of `params` with the request
text. -/
def prepareUpdate (addRem : AddRem) (update : Template) (params : JsVal) :
    List Call × Result (JsVal × String) :=
  match prepareUpdateParams addRem params [] with
  | (calls, .ok params') => (calls, .ok (params', update params'))
  | (calls, .error e) => (calls, .error e)

/-! ## Notions used to state the properties -/

/-- Whether a value is an object (a mapping or an array), so that an
assignment to one of its properties is kept. -/
def isObject : JsVal → Bool
  | .arr _ _ => true
  | .obj _ => true
  | _ => false

/-- What a read of `v[k]` yields, with `undefined` where the read throws. -/
def peek (v : JsVal) (k : Name) : JsVal :=
  match getProp v k with
  | .ok w => w
  | .error _ => .undefined

/-- What a read of `v[k1]...[kn]` yields, with `undefined` where it throws. -/
def peekPath (v : JsVal) : List Name → JsVal
  | [] => v
  | k :: ks => peekPath (peek v k) ks

/-- State of `v` after `v[k] = x`, with `v` itself where the assignment
throws. -/
def poke (v : JsVal) (k : Name) (x : JsVal) : JsVal :=
  match setProp v k x with
  | .ok w => w
  | .error _ => v

/-- Path `['epp']['response']['extension']['launch:infData']['mark:mark']` of
the model, where a response carries its launch-extension mark. -/
def markSource : List Name :=
  [Key.epp, Key.response, Key.extension, Key.launchInfData, Key.mark]

/-- What lines 72-88 make of the fetched item: the mark of the response, when
there is one, is attached in serialised form, and a host that is there and is
no array is wrapped. -/
def expectedItem (serialize : Serializer) (mark fetched : JsVal) : JsVal :=
  let item :=
    if truthy mark then poke fetched Key.mark (.obj [("keyValue", .str (serialize mark))])
    else fetched
  let host := peekPath item [Key.ns, Key.hostObj]
  if truthy host && !isArray host then
    poke item Key.ns (poke (peek item Key.ns) Key.hostObj (.arr [host] []))
  else item

/-- The update path as the specification words it: `nextId` is set and each
diff is computed exactly once, Contacts when `domain:contact` is present and
Hosts when `domain:ns.domain:hostObj` is present. It is the method without its
lines 159-162. -/
def prepareUpdateOnce (addRem : AddRem) (params : JsVal) : Eff JsVal := do
  let form ← Eff.lift (getProp params Key.item)
  let nextId ← Eff.lift (getProp form Key.name)
  let params ← Eff.lift (setProp params Key.nextId nextId)
  let params ← diffContacts addRem form params
  let form := liveForm form params
  diffHosts addRem form params

/-! ## Sample inputs and collaborators -/

/-- A serialiser to run the model with. -/
def sampleSerialize : Serializer :=
  fun v => if isObject v then "[object]" else "[scalar]"

/-- A template to run the model with. -/
def sampleTemplate : Template :=
  fun _ => "<epp/>"

/-- An `addRem` to run the model with: it stores the sequence it is given in
`params` under its label, and does nothing to a `params` that is no mapping. -/
def sampleWrite (seq : JsVal) (label : String) (params : JsVal) : JsVal :=
  match params with
  | .obj ps => .obj (storeProp label seq ps)
  | p => p

/-- The sample `addRem`, which never throws. -/
def sampleAddRem : AddRem :=
  fun seq label params => .ok (sampleWrite seq label params)

/-- A model that holds the response to a fetch, given its `domain:infData`
children and its `extension`. -/
def fetchedModel (infData : JsVal) (extension : List (String × JsVal)) : JsVal :=
  .obj [("epp", .obj [("response",
    .obj (("resData", .obj [("domain:infData", infData)]) :: extension))])]

/-- A response with one host, a bare string, and no extension. -/
def oneHostModel : JsVal :=
  fetchedModel (.obj [("domain:name", .str "example.tld"),
    ("domain:ns", .obj [("domain:hostObj", .str "ns1.example.tld")])]) []

/-- A response with two hosts and no extension. -/
def twoHostModel : JsVal :=
  fetchedModel (.obj [("domain:ns", .obj [("domain:hostObj",
    .arr [.str "ns1.example.tld", .str "ns2.example.tld"] [])])]) []

/-- A response with a launch-extension mark and two hosts. -/
def markedModel : JsVal :=
  fetchedModel (.obj [("domain:name", .str "example.tld"),
    ("domain:ns", .obj [("domain:hostObj",
      .arr [.str "ns1.example.tld", .str "ns2.example.tld"] [])])])
    [("extension", .obj [("launch:infData", .obj [("mark:mark",
      .obj [("mark:trademark", .obj [("mark:id", .str "1234-2")])])])])]

/-- Arguments of `setupEditor` for a domain with one contact, which the XML
conversion gives as a mapping, and two hosts. -/
def oneContactArgs : JsVal :=
  .obj [("item", .obj [("domain:name", .str "example.tld"),
    ("domain:contact", .obj [("@type", .str "admin"), ("keyValue", .str "crr-admin")]),
    ("domain:ns", .obj [("domain:hostObj",
      .arr [.str "ns1.example.tld", .str "ns2.example.tld"] [])])])]

/-- A create form with an empty signed mark. -/
def emptyMarkParams : JsVal :=
  .obj [("item", .obj [("domain:name", .str "example.tld"),
    ("smd:encodedSignedMark", .str "")]), ("clTrid", .str "abc-123")]

/-- A create form with a signed mark. -/
def signedMarkParams : JsVal :=
  .obj [("item", .obj [("domain:name", .str "example.tld"),
    ("smd:encodedSignedMark", .str "PD94bWw=")]), ("clTrid", .str "abc-123")]

/-- An update form with a name only: no contact and no host. -/
def nameOnlyParams : JsVal :=
  .obj [("item", .obj [("domain:name", .str "example.tld")]), ("clTrid", .str "abc-123")]

/-- An update form with contacts and hosts. -/
def contactParams : JsVal :=
  .obj [("item", .obj [("domain:name", .str "example.tld"),
    ("domain:contact", .arr [.obj [("@type", .str "admin"), ("keyValue", .str "crr-admin")]] []),
    ("domain:ns", .obj [("domain:hostObj", .arr [.str "ns1.example.tld"] [])])]),
    ("clTrid", .str "abc-123")]

/-! ## Property lists: lemmas -/

theorem lookupProp_storeProp_same (k : String) (v : JsVal) (ps : List (String × JsVal)) :
    lookupProp k (storeProp k v ps) = v := by
  induction ps with
  | nil => simp [storeProp, lookupProp]
  | cons p rest ih =>
    obtain ⟨k', v'⟩ := p
    by_cases h : k' = k
    · simp [storeProp, lookupProp, h]
    · simp [storeProp, lookupProp, h, ih]

theorem lookupProp_storeProp_ne (k k' : String) (v : JsVal) (ps : List (String × JsVal))
    (hne : k ≠ k') : lookupProp k' (storeProp k v ps) = lookupProp k' ps := by
  induction ps with
  | nil => simp [storeProp, lookupProp, hne]
  | cons p rest ih =>
    obtain ⟨k1, v1⟩ := p
    by_cases h : k1 = k
    · subst h
      simp [storeProp, lookupProp, hne]
    · by_cases h2 : k1 = k'
      · subst h2
        simp [storeProp, lookupProp, h]
      · simp [storeProp, lookupProp, h, h2, ih]

theorem boundIn_eraseProp (k : String) (ps : List (String × JsVal)) :
    boundIn k (eraseProp k ps) = false := by
  induction ps with
  | nil => simp [eraseProp, boundIn]
  | cons p rest ih =>
    obtain ⟨k', v'⟩ := p
    by_cases h : k' = k
    · simp [eraseProp, h, ih]
    · simp [eraseProp, boundIn, h, ih]

theorem lookupProp_eraseProp_ne (k k' : String) (ps : List (String × JsVal))
    (hne : k ≠ k') : lookupProp k' (eraseProp k ps) = lookupProp k' ps := by
  induction ps with
  | nil => simp [eraseProp, lookupProp]
  | cons p rest ih =>
    obtain ⟨k1, v1⟩ := p
    by_cases h : k1 = k
    · subst h
      simp [eraseProp, lookupProp, hne, ih]
    · by_cases h2 : k1 = k'
      · subst h2
        simp [eraseProp, lookupProp, h]
      · simp [eraseProp, lookupProp, h, h2, ih]

/-! ## Reads and assignments -/

theorem not_nullish_of_truthy (v : JsVal) (h : truthy v = true) : nullish v = false := by
  cases v <;> simp_all [truthy, nullish]

theorem peek_of_not_truthy (v : JsVal) (k : Name) (h : truthy v = false) :
    peek v k = .undefined := by
  cases v <;> simp_all [truthy, peek, getProp]

theorem getProp_eq_peek (v : JsVal) (k : Name) (h : nullish v = false) :
    getProp v k = .ok (peek v k) := by
  cases v <;> simp_all [nullish, peek, getProp]

theorem peek_of_getProp (v w : JsVal) (k : Name) (h : getProp v k = .ok w) : peek v k = w := by
  simp [peek, h]

theorem not_nullish_of_getProp (v w : JsVal) (k : Name) (h : getProp v k = .ok w) :
    nullish v = false := by
  cases v <;> simp_all [nullish, getProp]

theorem isObject_of_getProp (v w : JsVal) (k : Name) (h : getProp v k = .ok w)
    (hw : nullish w = false) : isObject v = true := by
  cases v <;> simp [getProp] at h <;> first | rfl | (subst h; simp [nullish] at hw)

theorem not_nullish_of_isObject (v : JsVal) (h : isObject v = true) : nullish v = false := by
  cases v <;> simp_all [nullish, isObject]

theorem setProp_eq_poke (v : JsVal) (k : Name) (x : JsVal) (h : nullish v = false) :
    setProp v k x = .ok (poke v k x) := by
  cases v <;> simp_all [nullish, poke, setProp]

theorem isObject_poke (v : JsVal) (k : Name) (x : JsVal) :
    isObject (poke v k x) = isObject v := by
  cases v <;> simp [poke, setProp, isObject]

theorem nullish_poke (v : JsVal) (k : Name) (x : JsVal) :
    nullish (poke v k x) = nullish v := by
  cases v <;> simp [poke, setProp, nullish]

theorem getProp_poke_same (v : JsVal) (k : Name) (x : JsVal) (h : isObject v = true) :
    getProp (poke v k x) k = .ok x := by
  cases v <;> simp_all [poke, setProp, isObject, getProp, lookupProp_storeProp_same]

theorem getProp_poke_ne (v : JsVal) (k k' : Name) (x : JsVal) (hne : k.text ≠ k'.text) :
    getProp (poke v k x) k' = getProp v k' := by
  cases v <;> simp [poke, setProp, getProp, lookupProp_storeProp_ne _ _ _ _ hne]

theorem peek_poke_ne (v : JsVal) (k k' : Name) (x : JsVal) (hne : k.text ≠ k'.text) :
    peek (poke v k x) k' = peek v k' := by
  simp [peek, getProp_poke_ne v k k' x hne]

theorem readPath_cons (v : JsVal) (k : Name) (ks : List Name) (w : JsVal) :
    readPath v (k :: ks) = .ok w ↔ ∃ u, getProp v k = .ok u ∧ readPath u ks = .ok w := by
  cases h : getProp v k <;> simp [readPath, h]

theorem readPath_congr (v v' : JsVal) (k : Name) (ks : List Name)
    (h : getProp v' k = getProp v k) : readPath v' (k :: ks) = readPath v (k :: ks) := by
  simp [readPath, h]

theorem readPath_eq_peekPath (ks : List Name) :
    ∀ (v w : JsVal), readPath v ks = .ok w → peekPath v ks = w := by
  induction ks with
  | nil => intro v w h; simpa [readPath, peekPath] using h
  | cons k ks ih =>
    intro v w h
    obtain ⟨u, hu, hr⟩ := (readPath_cons v k ks w).1 h
    simp [peekPath, peek_of_getProp v u k hu, ih u w hr]

theorem writePath_cons (v u : JsVal) (k : Name) (ks : List Name) (x : JsVal)
    (hu : getProp v k = .ok u) :
    writePath v (k :: ks) x =
      (match writePath u ks x with
        | .ok w => setProp v k w
        | .error e => .error e) := by
  simp [writePath, hu]

/-- An assignment below a path that can be read shows at the end of that path
and leaves the other properties of the root as they were. -/
theorem writePath_through (ks : List Name) :
    ∀ (k : Name) (v w : JsVal) (q : List Name) (x w' : JsVal),
      readPath v (k :: ks) = .ok w → nullish w = false → writePath w q x = .ok w' →
      ∃ v', writePath v (k :: ks ++ q) x = .ok v' ∧ readPath v' (k :: ks) = .ok w' ∧
        isObject v' = true ∧
        ∀ k' : Name, k.text ≠ k'.text → getProp v' k' = getProp v k' := by
  induction ks with
  | nil =>
    intro k v w q x w' hr hw hwr
    obtain ⟨u, hu, hr'⟩ := (readPath_cons v k [] w).1 hr
    simp only [readPath, Except.ok.injEq] at hr'
    subst hr'
    have hobj := isObject_of_getProp v u k hu hw
    refine ⟨poke v k w', ?_, ?_, ?_, ?_⟩
    · have : writePath v (k :: q) x = .ok (poke v k w') := by
        rw [writePath_cons v u k q x hu, hwr]
        exact setProp_eq_poke v k w' (not_nullish_of_isObject v hobj)
      simpa using this
    · simp [readPath, getProp_poke_same v k w' hobj]
    · simp [isObject_poke, hobj]
    · intro k' hne
      exact getProp_poke_ne v k k' w' hne
  | cons k2 ks ih =>
    intro k v w q x w' hr hw hwr
    obtain ⟨u, hu, hr'⟩ := (readPath_cons v k (k2 :: ks) w).1 hr
    obtain ⟨u', hu', hru', -, -⟩ := ih k2 u w q x w' hr' hw hwr
    obtain ⟨t, ht, -⟩ := (readPath_cons u k2 ks w).1 hr'
    have hobj := isObject_of_getProp v u k hu (not_nullish_of_getProp u t k2 ht)
    refine ⟨poke v k u', ?_, ?_, ?_, ?_⟩
    · have : writePath v (k :: (k2 :: ks ++ q)) x = .ok (poke v k u') := by
        rw [writePath_cons v u k (k2 :: ks ++ q) x hu, hu']
        exact setProp_eq_poke v k u' (not_nullish_of_isObject v hobj)
      simpa using this
    · rw [readPath_cons]
      exact ⟨u', getProp_poke_same v k u' hobj, hru'⟩
    · simp [isObject_poke, hobj]
    · intro k' hne
      exact getProp_poke_ne v k k' u' hne

/-! ## `processItem` -/

theorem readPath_single (v : JsVal) (k : Name) : readPath v [k] = getProp v k := by
  cases h : getProp v k <;> simp [readPath, h]

theorem writeItem_ok (model item : JsVal) (q : List Name) (x item' : JsVal)
    (hi : getProp model Key.item = .ok item) (hs : readPath model itemSource = .ok item)
    (hn : nullish item = false) (hw : writePath item q x = .ok item') :
    ∃ m', writeItem model q x = .ok m' ∧ getProp m' Key.item = .ok item' ∧
      readPath m' itemSource = .ok item' := by
  have h1 : readPath model [Key.item] = .ok item := by rw [readPath_single]; exact hi
  obtain ⟨m1, hw1, hr1, -, hf1⟩ := writePath_through [] Key.item model item q x item' h1 hn hw
  have hs1 : readPath m1 itemSource = .ok item := by
    rw [itemSource, readPath_congr model m1 Key.epp _ (hf1 Key.epp (by decide))]
    exact hs
  obtain ⟨m2, hw2, hr2, -, hf2⟩ :=
    writePath_through [Key.response, Key.resData, Key.infData] Key.epp m1 item q x item' hs1 hn hw
  refine ⟨m2, ?_, ?_, hr2⟩
  · have hw1' : writePath model (Key.item :: q) x = .ok m1 := hw1
    simp only [writeItem, hw1']
    exact hw2
  · rw [hf2 Key.item (by decide), ← readPath_single]
    exact hr1

theorem writePath_single (v : JsVal) (k : Name) (x : JsVal) (hn : nullish v = false) :
    writePath v [k] x = .ok (poke v k x) := by
  rw [writePath_cons v (peek v k) k [] x (getProp_eq_peek v k hn)]
  simp [writePath, setProp_eq_poke v k x hn]

theorem hoistMark_ok (serialize : Serializer) (model item : JsVal)
    (hi : getProp model Key.item = .ok item) (hs : readPath model itemSource = .ok item)
    (hn : nullish item = false) :
    ∃ m' item', hoistMark serialize model = .ok m' ∧ getProp m' Key.item = .ok item' ∧
      readPath m' itemSource = .ok item' ∧
      item' = (if truthy (peekPath model markSource) then
        poke item Key.mark (.obj [("keyValue", .str (serialize (peekPath model markSource)))])
        else item) := by
  have hs0 := hs
  obtain ⟨e, he, hs⟩ := (readPath_cons _ _ _ _).1 hs
  obtain ⟨r, hr, hs⟩ := (readPath_cons _ _ _ _).1 hs
  obtain ⟨d, hd, hs⟩ := (readPath_cons _ _ _ _).1 hs
  have hrn := not_nullish_of_getProp r d Key.resData hd
  have hext : readPath model [Key.epp, Key.response, Key.extension]
      = .ok (peek r Key.extension) := by
    simp [readPath, he, hr, getProp_eq_peek r Key.extension hrn]
  have hmk : peekPath model markSource
      = peek (peek (peek r Key.extension) Key.launchInfData) Key.mark := by
    simp [markSource, peekPath, peek_of_getProp _ _ _ he, peek_of_getProp _ _ _ hr]
  rw [hmk]
  generalize peek r Key.extension = ext at hext
  unfold hoistMark
  simp only [bind, Except.bind, hext]
  by_cases hte : truthy ext = true
  · have hl := getProp_eq_peek ext Key.launchInfData (not_nullish_of_truthy ext hte)
    simp only [hte, if_true, hl]
    by_cases htl : truthy (peek ext Key.launchInfData) = true
    · have hm := getProp_eq_peek (peek ext Key.launchInfData) Key.mark
        (not_nullish_of_truthy _ htl)
      simp only [htl, if_true, hm]
      by_cases htm : truthy (peek (peek ext Key.launchInfData) Key.mark) = true
      · simp only [htm, if_true]
        obtain ⟨m', h1, h2, h3⟩ := writeItem_ok model item [Key.mark] _ _ hi hs0 hn
          (writePath_single item Key.mark _ hn)
        exact ⟨m', _, h1, h2, h3, rfl⟩
      · refine ⟨model, item, ?_, hi, hs0, ?_⟩
        · simp [htm, pure, Except.pure]
        · simp [htm]
    · have hu := peek_of_not_truthy (peek ext Key.launchInfData) Key.mark (by simpa using htl)
      refine ⟨model, item, ?_, hi, hs0, ?_⟩
      · simp [htl, pure, Except.pure]
      · simp [hu, truthy]
  · have hu := peek_of_not_truthy ext Key.launchInfData (by simpa using hte)
    refine ⟨model, item, ?_, hi, hs0, ?_⟩
    · simp [hte, pure, Except.pure]
    · have hu2 : peek JsVal.undefined Key.mark = .undefined := rfl
      rw [hu, hu2]
      simp [truthy]

theorem wrapHostObj_ok (model item : JsVal)
    (hi : getProp model Key.item = .ok item) (hs : readPath model itemSource = .ok item)
    (hn : nullish item = false) :
    ∃ m' item', wrapHostObj model = .ok m' ∧ getProp m' Key.item = .ok item' ∧
      readPath m' itemSource = .ok item' ∧
      item' = (if truthy (peekPath item [Key.ns, Key.hostObj])
          && !isArray (peekPath item [Key.ns, Key.hostObj]) then
        poke item Key.ns (poke (peek item Key.ns) Key.hostObj
          (.arr [peekPath item [Key.ns, Key.hostObj]] []))
        else item) := by
  have hns : readPath model [Key.item, Key.ns] = .ok (peek item Key.ns) := by
    simp [readPath, hi, getProp_eq_peek item Key.ns hn]
  have hpp : peekPath item [Key.ns, Key.hostObj] = peek (peek item Key.ns) Key.hostObj := rfl
  rw [hpp]
  unfold wrapHostObj
  simp only [bind, Except.bind, hns]
  by_cases htn : truthy (peek item Key.ns) = true
  · have hnn := not_nullish_of_truthy _ htn
    have hh : readPath model [Key.item, Key.ns, Key.hostObj]
        = .ok (peek (peek item Key.ns) Key.hostObj) := by
      simp [readPath, hi, getProp_eq_peek item Key.ns hn,
        getProp_eq_peek (peek item Key.ns) Key.hostObj hnn]
    simp only [htn, if_true, hh]
    by_cases hth : truthy (peek (peek item Key.ns) Key.hostObj) = true
    · simp only [hth, if_true]
      by_cases ha : isArray (peek (peek item Key.ns) Key.hostObj) = true
      · refine ⟨model, item, ?_, hi, hs, ?_⟩
        · simp [ha, pure, Except.pure]
        · simp [ha]
      · have hw : writePath item [Key.ns, Key.hostObj]
            (.arr [peek (peek item Key.ns) Key.hostObj] [])
            = .ok (poke item Key.ns (poke (peek item Key.ns) Key.hostObj
                (.arr [peek (peek item Key.ns) Key.hostObj] []))) := by
          rw [writePath_cons item (peek item Key.ns) Key.ns [Key.hostObj] _
            (getProp_eq_peek item Key.ns hn), writePath_single _ _ _ hnn]
          exact setProp_eq_poke _ _ _ hn
        obtain ⟨m', h1, h2, h3⟩ := writeItem_ok model item _ _ _ hi hs hn hw
        refine ⟨m', _, ?_, h2, h3, ?_⟩
        · simpa [ha] using h1
        · simp [ha, hth]
    · refine ⟨model, item, ?_, hi, hs, ?_⟩
      · simp [hth, pure, Except.pure]
      · simp [hth]
  · have hu := peek_of_not_truthy (peek item Key.ns) Key.hostObj (by simpa using htn)
    refine ⟨model, item, ?_, hi, hs, ?_⟩
    · simp [htn, pure, Except.pure]
    · rw [hu]
      simp [truthy]

/-- On a model whose response holds an item, `processItem` returns, and the
item of the model is then the fetched one with the mark attached and the host
wrapped. -/
theorem processItem_ok (serialize : Serializer) (model fetched : JsVal)
    (hf : readPath model itemSource = .ok fetched) (hn : nullish fetched = false) :
    ∃ m', processItem serialize model = .ok m' ∧
      getProp m' Key.item = .ok (expectedItem serialize (peekPath model markSource) fetched) ∧
      readPath m' itemSource
        = .ok (expectedItem serialize (peekPath model markSource) fetched) := by
  obtain ⟨e, he, hf'⟩ := (readPath_cons _ _ _ _).1 hf
  obtain ⟨r, hr, -⟩ := (readPath_cons _ _ _ _).1 hf'
  have hobj : isObject model = true :=
    isObject_of_getProp model e Key.epp he (not_nullish_of_getProp e r Key.response hr)
  have hset := setProp_eq_poke model Key.item fetched (not_nullish_of_isObject model hobj)
  have hi1 := getProp_poke_same model Key.item fetched hobj
  have hfr : getProp (poke model Key.item fetched) Key.epp = getProp model Key.epp :=
    getProp_poke_ne model Key.item Key.epp fetched (by decide)
  have hs1 : readPath (poke model Key.item fetched) itemSource = .ok fetched := by
    rw [itemSource, readPath_congr model _ Key.epp _ hfr]
    exact hf
  have hmk : peekPath (poke model Key.item fetched) markSource = peekPath model markSource := by
    simp [markSource, peekPath, peek, hfr]
  obtain ⟨m2, it2, h21, h22, h23, h24⟩ := hoistMark_ok serialize _ fetched hi1 hs1 hn
  have hn2 : nullish it2 = false := by
    rw [h24]
    split
    · rw [nullish_poke]; exact hn
    · exact hn
  obtain ⟨m3, it3, h31, h32, h33, h34⟩ := wrapHostObj_ok m2 it2 h22 h23 hn2
  have hit : it3 = expectedItem serialize (peekPath model markSource) fetched := by
    rw [h34, h24, hmk]
    rfl
  refine ⟨m3, ?_, ?_, ?_⟩
  · simp [processItem, bind, Except.bind, hf, hset, h21, h31]
  · rw [h32, hit]
  · rw [h33, hit]

theorem JsError.eq_typeError (e : JsError) : e = .typeError := by
  cases e
  rfl

theorem getProp_of_nullish (v : JsVal) (k : Name) (h : nullish v = true) :
    getProp v k = .error .typeError := by
  cases v <;> simp_all [nullish, getProp]

theorem peek_of_nullish (v : JsVal) (k : Name) (h : nullish v = true) :
    peek v k = .undefined := by
  simp [peek, getProp_of_nullish v k h]

theorem readPath_of_peekPath (ks : List Name) :
    ∀ v : JsVal, nullish (peekPath v ks) = false → readPath v ks = .ok (peekPath v ks) := by
  induction ks with
  | nil => intro v _; rfl
  | cons k ks ih =>
    intro v h
    have hv : nullish v = false := by
      cases hv : nullish v
      · rfl
      · exfalso
        have hu : ∀ ks : List Name, peekPath JsVal.undefined ks = .undefined := by
          intro ks
          induction ks with
          | nil => rfl
          | cons k ks ih => simpa [peekPath, peek, getProp] using ih
        rw [peekPath, peek_of_nullish v k hv, hu] at h
        simp [nullish] at h
    rw [readPath_cons]
    exact ⟨peek v k, getProp_eq_peek v k hv, ih (peek v k) h⟩

theorem wrapHostObj_error (model item : JsVal) (hi : getProp model Key.item = .ok item)
    (hn : nullish item = true) : wrapHostObj model = .error .typeError := by
  have hns : readPath model [Key.item, Key.ns] = .error .typeError := by
    simp [readPath, hi, getProp_of_nullish item Key.ns hn]
  simp [wrapHostObj, bind, Except.bind, hns]

theorem hoistMark_error (serialize : Serializer) (model item : JsVal)
    (hi : getProp model Key.item = .ok item) (hn : nullish item = true) :
    hoistMark serialize model = .error .typeError ∨ hoistMark serialize model = .ok model := by
  have hw : ∀ x, writeItem model [Key.mark] x = .error .typeError := by
    intro x
    have h1 : writePath item [Key.mark] x = .error .typeError := by
      simp [writePath, getProp_of_nullish item Key.mark hn]
    have h2 : writePath model (Key.item :: [Key.mark]) x = .error .typeError := by
      rw [writePath_cons model item Key.item [Key.mark] x hi, h1]
    simp only [writeItem, h2]
  unfold hoistMark
  cases hext : readPath model [Key.epp, Key.response, Key.extension] with
  | error e => left; simp [bind, Except.bind, JsError.eq_typeError e]
  | ok ext =>
    simp only [bind, Except.bind]
    by_cases hte : truthy ext = true
    · have hl := getProp_eq_peek ext Key.launchInfData (not_nullish_of_truthy ext hte)
      simp only [hte, if_true, hl]
      by_cases htl : truthy (peek ext Key.launchInfData) = true
      · have hm := getProp_eq_peek (peek ext Key.launchInfData) Key.mark
          (not_nullish_of_truthy _ htl)
        simp only [htl, if_true, hm]
        by_cases htm : truthy (peek (peek ext Key.launchInfData) Key.mark) = true
        · left; simp [htm, hw]
        · right; simp [htm, pure, Except.pure]
      · right; simp [htl, pure, Except.pure]
    · right; simp [hte, pure, Except.pure]

/-- On a model whose response holds no item, `processItem` throws. -/
theorem processItem_error (serialize : Serializer) (model : JsVal)
    (h : nullish (peekPath model itemSource) = true) :
    processItem serialize model = .error .typeError := by
  cases hf : readPath model itemSource with
  | error e => simp [processItem, bind, Except.bind, hf, JsError.eq_typeError e]
  | ok fetched =>
    have hfn : nullish fetched = true := by
      rw [← readPath_eq_peekPath itemSource model fetched hf]; exact h
    obtain ⟨e, he, hf'⟩ := (readPath_cons _ _ _ _).1 hf
    obtain ⟨r, hr, -⟩ := (readPath_cons _ _ _ _).1 hf'
    have hobj : isObject model = true :=
      isObject_of_getProp model e Key.epp he (not_nullish_of_getProp e r Key.response hr)
    have hset := setProp_eq_poke model Key.item fetched (not_nullish_of_isObject model hobj)
    have hi1 := getProp_poke_same model Key.item fetched hobj
    rcases hoistMark_error serialize _ fetched hi1 hfn with h1 | h1
    · simp [processItem, bind, Except.bind, hf, hset, h1]
    · simp [processItem, bind, Except.bind, hf, hset, h1, wrapHostObj_error _ fetched hi1 hfn]

/-! ## The properties of `processItem` -/

/-- What `processItem` leaves at `domain:ns.domain:hostObj` of the item, for a
response whose item holds `host` there. -/
theorem processItem_hostObj_value (serialize : Serializer) (model fetched host : JsVal)
    (hf : readPath model itemSource = .ok fetched)
    (hh : readPath fetched [Key.ns, Key.hostObj] = .ok host) :
    ∃ m', processItem serialize model = .ok m' ∧
      readPath m' [Key.item, Key.ns, Key.hostObj]
        = .ok (if truthy host && !isArray host then .arr [host] [] else host) := by
  obtain ⟨nsv, hns, hh'⟩ := (readPath_cons _ _ _ _).1 hh
  rw [readPath_single] at hh'
  have hn := not_nullish_of_getProp fetched nsv Key.ns hns
  have hnn := not_nullish_of_getProp nsv host Key.hostObj hh'
  obtain ⟨m', h1, h2, -⟩ := processItem_ok serialize model fetched hf hn
  refine ⟨m', h1, ?_⟩
  rw [readPath_cons]
  refine ⟨_, h2, ?_⟩
  have hp : peekPath (if truthy (peekPath model markSource) = true then
        poke fetched Key.mark (.obj [("keyValue", .str (serialize (peekPath model markSource)))])
      else fetched) [Key.ns, Key.hostObj] = host := by
    have : peekPath fetched [Key.ns, Key.hostObj] = host := readPath_eq_peekPath _ _ _ hh
    split
    · simpa [peekPath, peek_poke_ne fetched Key.mark Key.ns _ (by decide)] using this
    · exact this
  have hg : ∀ it : JsVal, getProp it Key.ns = getProp fetched Key.ns →
      readPath it [Key.ns, Key.hostObj] = .ok host := by
    intro it hit
    rw [readPath_congr fetched it Key.ns _ hit]
    exact hh
  have h1g : getProp (if truthy (peekPath model markSource) = true then
        poke fetched Key.mark (.obj [("keyValue", .str (serialize (peekPath model markSource)))])
      else fetched) Key.ns = .ok nsv := by
    split
    · rw [getProp_poke_ne fetched Key.mark Key.ns _ (by decide)]; exact hns
    · exact hns
  have h1o : isObject (if truthy (peekPath model markSource) = true then
        poke fetched Key.mark (.obj [("keyValue", .str (serialize (peekPath model markSource)))])
      else fetched) = true := by
    have := isObject_of_getProp fetched nsv Key.ns hns hnn
    split
    · rw [isObject_poke]; exact this
    · exact this
  simp only [expectedItem]
  rw [hp]
  by_cases hc : (truthy host && !isArray host) = true
  · simp only [hc, if_true]
    have hno : isObject nsv = true := by
      simp only [Bool.and_eq_true] at hc
      exact isObject_of_getProp nsv host Key.hostObj hh' (not_nullish_of_truthy host hc.1)
    rw [readPath_cons]
    refine ⟨_, getProp_poke_same _ Key.ns _ h1o, ?_⟩
    rw [readPath_single, peek_of_getProp _ _ _ h1g]
    exact getProp_poke_same nsv Key.hostObj _ hno
  · simp only [hc]
    exact hg _ (h1g.trans hns.symm)

/-- Claim C1: on a fetch response whose item has `domain:ns.domain:hostObj`
present (it passes the presence test of the code, lines 82-83), `processItem`
returns and the item then holds a sequence there: the one-element sequence
`[host]` when the response holds a bare value `host`, and the same sequence,
unchanged, when the response already holds a sequence. -/
theorem processItem_hostObj (serialize : Serializer) (model fetched host : JsVal)
    (hf : readPath model itemSource = .ok fetched)
    (hh : readPath fetched [Key.ns, Key.hostObj] = .ok host)
    (ht : truthy host = true) :
    ∃ m' seq, processItem serialize model = .ok m' ∧
      readPath m' [Key.item, Key.ns, Key.hostObj] = .ok seq ∧ isArray seq = true ∧
      (isArray host = false → seq = .arr [host] []) ∧
      (isArray host = true → seq = host) := by
  obtain ⟨m', h1, h2⟩ := processItem_hostObj_value serialize model fetched host hf hh
  by_cases ha : isArray host = true
  · refine ⟨m', host, h1, ?_, ha, ?_, fun _ => rfl⟩
    · simpa [ht, ha] using h2
    · intro hna
      rw [ha] at hna
      cases hna
  · have ha' : isArray host = false := by simpa using ha
    refine ⟨m', .arr [host] [], h1, ?_, rfl, fun _ => rfl, ?_⟩
    · simpa [ht, ha'] using h2
    · intro hya
      rw [ha'] at hya
      cases hya

/-- Claim C1, witness: a response with one host, a bare string. -/
theorem processItem_hostObj_witness :
    ∃ m' seq, processItem sampleSerialize oneHostModel = .ok m' ∧
      readPath m' [Key.item, Key.ns, Key.hostObj] = .ok seq ∧ isArray seq = true ∧
      (isArray (.str "ns1.example.tld") = false → seq = .arr [.str "ns1.example.tld"] []) ∧
      (isArray (.str "ns1.example.tld") = true → seq = .str "ns1.example.tld") :=
  processItem_hostObj sampleSerialize oneHostModel
    (.obj [("domain:name", .str "example.tld"),
      ("domain:ns", .obj [("domain:hostObj", .str "ns1.example.tld")])])
    (.str "ns1.example.tld") (by decide) (by decide) (by decide)

/-- Claim C3: on a fetch response (its item is an object) that carries a
launch-extension mark at `extension['launch:infData']['mark:mark']`,
`processItem` returns and `item['mark:mark']` is then the mapping whose only
entry `keyValue` is the string that the serialiser gives for that mark. -/
theorem processItem_attaches_mark (serialize : Serializer) (model fetched mark : JsVal)
    (hf : readPath model itemSource = .ok fetched) (hobj : isObject fetched = true)
    (hm : readPath model markSource = .ok mark) (ht : truthy mark = true) :
    ∃ m', processItem serialize model = .ok m' ∧
      readPath m' [Key.item, Key.mark] = .ok (.obj [("keyValue", .str (serialize mark))]) := by
  have hn := not_nullish_of_isObject fetched hobj
  obtain ⟨m', h1, h2, -⟩ := processItem_ok serialize model fetched hf hn
  refine ⟨m', h1, ?_⟩
  rw [readPath_cons]
  refine ⟨_, h2, ?_⟩
  rw [readPath_single, readPath_eq_peekPath markSource model mark hm]
  simp only [expectedItem, ht, if_true]
  split
  · rw [getProp_poke_ne _ Key.ns Key.mark _ (by decide)]
    exact getProp_poke_same fetched Key.mark _ hobj
  · exact getProp_poke_same fetched Key.mark _ hobj

/-- Claim C3, witness: a response with a trademark mark in its launch
extension. -/
theorem processItem_attaches_mark_witness :
    ∃ m', processItem sampleSerialize markedModel = .ok m' ∧
      readPath m' [Key.item, Key.mark] = .ok (.obj [("keyValue", .str "[object]")]) :=
  processItem_attaches_mark sampleSerialize markedModel
    (.obj [("domain:name", .str "example.tld"),
      ("domain:ns", .obj [("domain:hostObj",
        .arr [.str "ns1.example.tld", .str "ns2.example.tld"] [])])])
    (.obj [("mark:trademark", .obj [("mark:id", .str "1234-2")])])
    (by decide) (by decide) (by decide) (by decide)

/-- Claim C4, as the code has it: on a response that holds an item and carries
no launch-extension mark, `processItem` returns and changes nothing in the item
but the host. The item of the model is the fetched one when its
`domain:ns.domain:hostObj` is falsy or a sequence, and otherwise the fetched
one after the assignment of `[host]` to its `domain:ns.domain:hostObj`. -/
theorem processItem_without_mark (serialize : Serializer) (model fetched : JsVal)
    (hf : readPath model itemSource = .ok fetched) (hn : nullish fetched = false)
    (hm : truthy (peekPath model markSource) = false) :
    ∃ m' item', processItem serialize model = .ok m' ∧ getProp m' Key.item = .ok item' ∧
      ((truthy (peekPath fetched [Key.ns, Key.hostObj]) = false ∨
          isArray (peekPath fetched [Key.ns, Key.hostObj]) = true) → item' = fetched) ∧
      ((truthy (peekPath fetched [Key.ns, Key.hostObj]) = true ∧
          isArray (peekPath fetched [Key.ns, Key.hostObj]) = false) →
        writePath fetched [Key.ns, Key.hostObj]
          (.arr [peekPath fetched [Key.ns, Key.hostObj]] []) = .ok item') := by
  obtain ⟨m', h1, h2, -⟩ := processItem_ok serialize model fetched hf hn
  refine ⟨m', _, h1, h2, ?_, ?_⟩
  · intro h
    simp only [expectedItem, hm]
    rcases h with h | h <;> simp [h]
  · intro ⟨h3, h4⟩
    have hnn : nullish (peek fetched Key.ns) = false := by
      cases hc : nullish (peek fetched Key.ns)
      · rfl
      · have hu : peekPath fetched [Key.ns, Key.hostObj] = .undefined :=
          peek_of_nullish _ Key.hostObj hc
        rw [hu] at h3
        simp [truthy] at h3
    rw [writePath_cons fetched (peek fetched Key.ns) Key.ns [Key.hostObj] _
      (getProp_eq_peek fetched Key.ns hn), writePath_single _ _ _ hnn]
    simp only [expectedItem, hm]
    simp [h3, h4, setProp_eq_poke _ _ _ hn]

/-- Claim C4, witness: a response with two hosts, already a sequence, and no
extension. -/
theorem processItem_without_mark_witness :
    ∃ m' item', processItem sampleSerialize twoHostModel = .ok m' ∧
      getProp m' Key.item = .ok item' ∧
      ((truthy (.arr [.str "ns1.example.tld", .str "ns2.example.tld"] []) = false ∨
          isArray (.arr [.str "ns1.example.tld", .str "ns2.example.tld"] []) = true) →
        item' = .obj [("domain:ns", .obj [("domain:hostObj",
          .arr [.str "ns1.example.tld", .str "ns2.example.tld"] [])])]) ∧
      ((truthy (.arr [.str "ns1.example.tld", .str "ns2.example.tld"] []) = true ∧
          isArray (.arr [.str "ns1.example.tld", .str "ns2.example.tld"] []) = false) →
        writePath (.obj [("domain:ns", .obj [("domain:hostObj",
          .arr [.str "ns1.example.tld", .str "ns2.example.tld"] [])])])
          [Key.ns, Key.hostObj]
          (.arr [.arr [.str "ns1.example.tld", .str "ns2.example.tld"] []] []) = .ok item') :=
  processItem_without_mark sampleSerialize twoHostModel
    (.obj [("domain:ns", .obj [("domain:hostObj",
      .arr [.str "ns1.example.tld", .str "ns2.example.tld"] [])])])
    (by decide) (by decide) (by decide)

/-- Claim C4, counterexample: the response carries no launch-extension mark,
and after `processItem` the item of the model is not the `domain:infData` that
was received: its single host is wrapped. -/
theorem processItem_without_mark_changes_item :
    peekPath oneHostModel markSource = .undefined ∧
      readPath oneHostModel itemSource = .ok (.obj [("domain:name", .str "example.tld"),
        ("domain:ns", .obj [("domain:hostObj", .str "ns1.example.tld")])]) ∧
      (processItem sampleSerialize oneHostModel >>= fun m => getProp m Key.item)
        = .ok (.obj [("domain:name", .str "example.tld"),
          ("domain:ns", .obj [("domain:hostObj", .arr [.str "ns1.example.tld"] [])])]) ∧
      (processItem sampleSerialize oneHostModel >>= fun m => getProp m Key.item)
        ≠ readPath oneHostModel itemSource := by
  decide

/-- Claim C8: `processItem` throws the `TypeError` exactly when a key of the
path `model.epp.response.resData['domain:infData']` is absent, that is, reads
as `undefined` (or holds `null`); when the path is there it returns, whatever
the response holds at `extension`, `launch:infData`, `mark:mark`, `domain:ns`
and `domain:hostObj`. -/
theorem processItem_fails_iff (serialize : Serializer) (model : JsVal) :
    (processItem serialize model = .error .typeError ↔
      (nullish (peekPath model [Key.epp]) = true ∨
        nullish (peekPath model [Key.epp, Key.response]) = true ∨
        nullish (peekPath model [Key.epp, Key.response, Key.resData]) = true ∨
        nullish (peekPath model itemSource) = true)) ∧
    (nullish (peekPath model itemSource) = false ↔ ∃ m', processItem serialize model = .ok m') := by
  have hprop : ∀ v : JsVal, ∀ k : Name, nullish v = true → nullish (peek v k) = true := by
    intro v k h
    rw [peek_of_nullish v k h]
    rfl
  have hall : (nullish (peekPath model [Key.epp]) = true ∨
        nullish (peekPath model [Key.epp, Key.response]) = true ∨
        nullish (peekPath model [Key.epp, Key.response, Key.resData]) = true ∨
        nullish (peekPath model itemSource) = true) →
      nullish (peekPath model itemSource) = true := by
    intro h
    simp only [peekPath, itemSource] at h ⊢
    rcases h with h | h | h | h
    · exact hprop _ _ (hprop _ _ (hprop _ _ h))
    · exact hprop _ _ (hprop _ _ h)
    · exact hprop _ _ h
    · exact h
  rcases Bool.eq_false_or_eq_true (nullish (peekPath model itemSource)) with hc | hc
  · have he := processItem_error serialize model hc
    refine ⟨⟨fun _ => Or.inr (Or.inr (Or.inr hc)), fun _ => he⟩, ⟨fun h => ?_, ?_⟩⟩
    · rw [hc] at h
      cases h
    · intro ⟨m', hm⟩
      rw [he] at hm
      cases hm
  · obtain ⟨m', h1, -, -⟩ := processItem_ok serialize model _
      (readPath_of_peekPath itemSource model hc) hc
    refine ⟨⟨fun h => ?_, fun h => ?_⟩, ⟨fun _ => ⟨m', h1⟩, fun _ => hc⟩⟩
    · rw [h1] at h
      cases h
    · have := hall h
      rw [hc] at this
      cases this

/-! ## `newModel`, `prepareCreate` and `prepareUpdate` -/

/-- Claim C9: the model that `newModel` gives has the one key `item`, and its
item has the one key `domain:period`, bound to the empty string. The method is
a literal, so there is nothing in it that can throw. -/
theorem newModel_only_period :
    ownNames newModel = ["item"] ∧
      getProp newModel Key.item = .ok (.obj [("domain:period", .str "")]) ∧
      ownNames (peek newModel Key.item) = ["domain:period"] ∧
      getProp (peek newModel Key.item) Key.period = .ok (.str "") := by
  decide

theorem lookupProp_eraseProp_same (k : String) (ps : List (String × JsVal)) :
    lookupProp k (eraseProp k ps) = .undefined := by
  induction ps with
  | nil => simp [eraseProp, lookupProp]
  | cons p rest ih =>
    obtain ⟨k', v'⟩ := p
    by_cases h : k' = k
    · simp [eraseProp, h, ih]
    · simp [eraseProp, lookupProp, h, ih]

theorem getProp_deleteProp_same (v v' : JsVal) (k : Name) (h : deleteProp v k = .ok v') :
    getProp v' k = .ok .undefined := by
  cases v <;> simp [deleteProp] at h <;> subst h <;>
    simp [getProp, lookupProp_eraseProp_same]

theorem getProp_deleteProp_ne (v v' : JsVal) (k k' : Name) (h : deleteProp v k = .ok v')
    (hne : k.text ≠ k'.text) : getProp v' k' = getProp v k' := by
  cases v <;> simp [deleteProp] at h <;> subst h <;>
    simp [getProp, lookupProp_eraseProp_ne _ _ _ hne]

theorem hasOwn_deleteProp (v v' : JsVal) (k : Name) (h : deleteProp v k = .ok v') :
    hasOwn v' k = false := by
  cases v <;> simp [deleteProp] at h <;> subst h <;> simp [hasOwn, boundIn_eraseProp]

theorem prepareCreateParams_empty (params item : JsVal)
    (hi : getProp params Key.item = .ok item)
    (hs : getProp item Key.signedMark = .ok (.str "")) :
    ∃ item', deleteProp item Key.signedMark = .ok item' ∧
      prepareCreateParams params
        = .ok (poke (poke params Key.nextId (peek item Key.name)) Key.item item') := by
  have hn := not_nullish_of_getProp item _ _ hs
  have hpo := isObject_of_getProp params item Key.item hi hn
  have hpn := not_nullish_of_isObject params hpo
  have hd : ∃ item', deleteProp item Key.signedMark = .ok item' := by
    cases item <;> simp [nullish] at hn <;> simp [deleteProp]
  obtain ⟨item', hd⟩ := hd
  refine ⟨item', hd, ?_⟩
  simp [prepareCreateParams, bind, Except.bind, hi, getProp_eq_peek item Key.name hn,
    setProp_eq_poke params Key.nextId _ hpn, hs, looseEqEmptyString, hd]
  exact setProp_eq_poke _ _ _ (by rw [nullish_poke]; exact hpn)

theorem prepareCreateParams_kept (params item : JsVal)
    (hi : getProp params Key.item = .ok item) (hn : nullish item = false)
    (hs : looseEqEmptyString (peek item Key.signedMark) = false) :
    prepareCreateParams params = .ok (poke params Key.nextId (peek item Key.name)) := by
  have hpo := isObject_of_getProp params item Key.item hi hn
  have hpn := not_nullish_of_isObject params hpo
  simp [prepareCreateParams, bind, Except.bind, hi, getProp_eq_peek item Key.name hn,
    setProp_eq_poke params Key.nextId _ hpn, getProp_eq_peek item Key.signedMark hn, hs,
    pure, Except.pure]

/-- Claim C2: when the item of `params` has the empty string at
`smd:encodedSignedMark`, the item that `prepareCreate` hands to the create
template has no such key (and its other entries as submitted); when it has a
string that is not empty there, the item handed over is the submitted one,
with that key and that value. -/
theorem prepareCreate_signedMark (create : Template) (params item : JsVal)
    (hi : getProp params Key.item = .ok item) :
    (getProp item Key.signedMark = .ok (.str "") →
      ∃ p' item', prepareCreate create params = .ok (p', create p') ∧
        getProp p' Key.item = .ok item' ∧ hasOwn item' Key.signedMark = false ∧
        getProp item' Key.signedMark = .ok .undefined ∧
        ∀ k : Name, Key.signedMark.text ≠ k.text → getProp item' k = getProp item k) ∧
    (∀ s : String, s ≠ "" → getProp item Key.signedMark = .ok (.str s) →
      ∃ p', prepareCreate create params = .ok (p', create p') ∧
        getProp p' Key.item = .ok item ∧
        readPath p' [Key.item, Key.signedMark] = .ok (.str s)) := by
  constructor
  · intro hs
    obtain ⟨item', hd, hp⟩ := prepareCreateParams_empty params item hi hs
    have hn := not_nullish_of_getProp item _ _ hs
    have hpo := isObject_of_getProp params item Key.item hi hn
    refine ⟨poke (poke params Key.nextId (peek item Key.name)) Key.item item', item', ?_, ?_,
      hasOwn_deleteProp item item' _ hd, getProp_deleteProp_same item item' _ hd,
      fun k hk => getProp_deleteProp_ne item item' _ k hd hk⟩
    · simp [prepareCreate, bind, Except.bind, hp, pure, Except.pure]
    · exact getProp_poke_same _ _ _ (by rw [isObject_poke]; exact hpo)
  · intro s hne hs
    have hn := not_nullish_of_getProp item _ _ hs
    have hp := prepareCreateParams_kept params item hi hn
      (by simp [peek_of_getProp _ _ _ hs, looseEqEmptyString, hne])
    have hg : getProp (poke params Key.nextId (peek item Key.name)) Key.item = .ok item := by
      rw [getProp_poke_ne params Key.nextId Key.item _ (by decide)]; exact hi
    refine ⟨poke params Key.nextId (peek item Key.name), ?_, hg, ?_⟩
    · simp [prepareCreate, bind, Except.bind, hp, pure, Except.pure]
    · rw [readPath_cons]
      exact ⟨item, hg, by rw [readPath_single]; exact hs⟩

/-- Claim C2, witness: a create form with an empty signed mark, and one with a
signed mark. -/
theorem prepareCreate_signedMark_witness :
    (∃ p' item', prepareCreate sampleTemplate emptyMarkParams = .ok (p', sampleTemplate p') ∧
        getProp p' Key.item = .ok item' ∧ hasOwn item' Key.signedMark = false ∧
        getProp item' Key.signedMark = .ok .undefined ∧
        ∀ k : Name, Key.signedMark.text ≠ k.text → getProp item' k
          = getProp (.obj [("domain:name", .str "example.tld"),
              ("smd:encodedSignedMark", .str "")]) k) ∧
    (∃ p', prepareCreate sampleTemplate signedMarkParams = .ok (p', sampleTemplate p') ∧
        getProp p' Key.item = .ok (.obj [("domain:name", .str "example.tld"),
          ("smd:encodedSignedMark", .str "PD94bWw=")]) ∧
        readPath p' [Key.item, Key.signedMark] = .ok (.str "PD94bWw=")) :=
  ⟨(prepareCreate_signedMark sampleTemplate emptyMarkParams
      (.obj [("domain:name", .str "example.tld"), ("smd:encodedSignedMark", .str "")])
      (by decide)).1 (by decide),
    (prepareCreate_signedMark sampleTemplate signedMarkParams
      (.obj [("domain:name", .str "example.tld"), ("smd:encodedSignedMark", .str "PD94bWw=")])
      (by decide)).2 "PD94bWw=" (by decide) (by decide)⟩

theorem Eff.lift_ok_bind {α β : Type} (a : α) (f : α → Eff β) :
    Eff.bind (Eff.lift (.ok a)) f = f a := by
  funext log
  rfl

theorem Eff.pure_bind {α β : Type} (a : α) (f : α → Eff β) :
    Eff.bind (Eff.pure a) f = f a := by
  funext log
  rfl

theorem nullish_liveForm (form params : JsVal) (h : nullish form = false) :
    nullish (liveForm form params) = false := by
  unfold liveForm
  cases hg : getProp params Key.item with
  | error e => exact h
  | ok item =>
    cases hi : nullish item
    · simp [hi]
    · simp [hi, h]

theorem liveForm_of_getProp (form params : JsVal) (hg : getProp params Key.item = .ok form)
    (h : nullish form = false) : liveForm form params = form := by
  simp [liveForm, hg, h]

theorem diffContacts_eq (addRem : AddRem) (form params : JsVal) (hn : nullish form = false) :
    diffContacts addRem form params =
      if truthy (peek form Key.contact) then
        Eff.invoke addRem (peek form Key.contact) "Contacts" params
      else Eff.pure params := by
  simp only [diffContacts, bind, getProp_eq_peek form Key.contact hn, Eff.lift_ok_bind, pure]

theorem diffHosts_eq (addRem : AddRem) (form params : JsVal) (hn : nullish form = false) :
    diffHosts addRem form params =
      if truthy (peekPath form [Key.ns, Key.hostObj]) then
        Eff.invoke addRem (peekPath form [Key.ns, Key.hostObj]) "Hosts" params
      else Eff.pure params := by
  have hns := getProp_eq_peek form Key.ns hn
  by_cases htn : truthy (peek form Key.ns) = true
  · have hh : readPath form [Key.ns, Key.hostObj]
        = .ok (peekPath form [Key.ns, Key.hostObj]) := by
      simp [readPath, hns, peekPath,
        getProp_eq_peek (peek form Key.ns) Key.hostObj (not_nullish_of_truthy _ htn)]
    simp only [diffHosts, bind, hns, htn, hh, if_true, pure, Eff.lift_ok_bind]
  · have hh : peekPath form [Key.ns, Key.hostObj] = .undefined :=
      peek_of_not_truthy _ Key.hostObj (by simpa using htn)
    have htn' : truthy (peek form Key.ns) = false := by simpa using htn
    have hu : truthy JsVal.undefined = false := rfl
    simp only [diffHosts, bind, hns, htn', hh, hu, Bool.false_eq_true, if_false, pure,
      Eff.lift_ok_bind, Eff.pure_bind]

/-- The update path, once `params.item` is known to be there: `nextId` is
assigned, then come the guarded diff of the contacts, the guarded diff of the
hosts, twice, and the invocation for the contacts that has no guard. -/
theorem prepareUpdateParams_eq (addRem : AddRem) (params item : JsVal)
    (hi : getProp params Key.item = .ok item) (hn : nullish item = false) :
    prepareUpdateParams addRem params =
      Eff.bind (diffContacts addRem item (poke params Key.nextId (peek item Key.name))) fun p2 =>
      Eff.bind (diffHosts addRem (liveForm item p2) p2) fun p3 =>
      Eff.bind (diffHosts addRem (liveForm (liveForm item p2) p3) p3) fun p4 =>
      Eff.invoke addRem
        (peek (liveForm (liveForm (liveForm item p2) p3) p4) Key.contact) "Contacts" p4 := by
  have hpo := isObject_of_getProp params item Key.item hi hn
  have hpn := not_nullish_of_isObject params hpo
  have hnm := getProp_eq_peek item Key.name hn
  have hset := setProp_eq_poke params Key.nextId (peek item Key.name) hpn
  have hlast : ∀ (f : JsVal) (g : JsVal → Eff JsVal), nullish f = false →
      Eff.bind (Eff.lift (getProp f Key.contact)) g = g (peek f Key.contact) := by
    intro f g hf
    rw [getProp_eq_peek f Key.contact hf, Eff.lift_ok_bind]
  have key : ∀ p2 p3 p4 : JsVal,
      (Eff.bind (Eff.lift (getProp (liveForm (liveForm (liveForm item p2) p3) p4) Key.contact))
        fun c => Eff.invoke addRem c "Contacts" p4)
      = Eff.invoke addRem
          (peek (liveForm (liveForm (liveForm item p2) p3) p4) Key.contact) "Contacts" p4 :=
    fun p2 p3 p4 => hlast _ _
      (nullish_liveForm _ p4 (nullish_liveForm _ p3 (nullish_liveForm item p2 hn)))
  simp only [prepareUpdateParams, bind, hi, hnm, hset, Eff.lift_ok_bind, key]

theorem prepareUpdateOnce_eq (addRem : AddRem) (params item : JsVal)
    (hi : getProp params Key.item = .ok item) (hn : nullish item = false) :
    prepareUpdateOnce addRem params =
      Eff.bind (diffContacts addRem item (poke params Key.nextId (peek item Key.name))) fun p2 =>
      diffHosts addRem (liveForm item p2) p2 := by
  have hpo := isObject_of_getProp params item Key.item hi hn
  have hpn := not_nullish_of_isObject params hpo
  have hnm := getProp_eq_peek item Key.name hn
  have hset := setProp_eq_poke params Key.nextId (peek item Key.name) hpn
  simp only [prepareUpdateOnce, bind, hi, hnm, hset, Eff.lift_ok_bind]

theorem Eff.bind_of_ok {α β : Type} (x : Eff α) (f : α → Eff β) (log log' : List Call) (a : α)
    (h : x log = (log', .ok a)) : Eff.bind x f log = f a log' := by
  simp [Eff.bind, h]

/-- Claim C5, the code at the failing input: on an update form with no
contact (and no host), whatever `addRem` does, `prepareUpdate` invokes it
once, with `undefined` as the sequence and the label `Contacts` (line 162). -/
theorem prepareUpdate_passes_absent_contact (addRem : AddRem) (update : Template) :
    getProp nameOnlyParams Key.item = .ok (.obj [("domain:name", .str "example.tld")]) ∧
      getProp (.obj [("domain:name", .str "example.tld")]) Key.contact = .ok .undefined ∧
      (prepareUpdate addRem update nameOnlyParams).1 = [⟨.undefined, "Contacts"⟩] := by
  refine ⟨by decide, by decide, ?_⟩
  have hn : nullish (.obj [("domain:name", .str "example.tld")]) = false := by decide
  have h := prepareUpdateParams_eq addRem nameOnlyParams
    (.obj [("domain:name", .str "example.tld")]) (by decide) hn
  have h2 : truthy (peekPath (.obj [("domain:name", .str "example.tld")])
      [Key.ns, Key.hostObj]) = false := by decide
  have h3 : peek (.obj [("domain:name", .str "example.tld")]) Key.contact = .undefined := by
    decide
  have h4 : liveForm (.obj [("domain:name", .str "example.tld")])
      (poke nameOnlyParams Key.nextId
        (peek (.obj [("domain:name", .str "example.tld")]) Key.name))
      = .obj [("domain:name", .str "example.tld")] := by decide
  have hu : truthy JsVal.undefined = false := rfl
  simp only [diffContacts_eq _ _ _ hn, h3, hu, Bool.false_eq_true, if_false, Eff.pure_bind, h4,
    diffHosts_eq _ _ _ hn, h2] at h
  unfold prepareUpdate
  rw [h]
  simp only [Eff.invoke, List.nil_append]
  cases addRem JsVal.undefined "Contacts"
    (poke nameOnlyParams Key.nextId
      (peek (.obj [("domain:name", .str "example.tld")]) Key.name)) <;> rfl

theorem condInvoke_keeps (addRem : AddRem) (k : Name) (v : JsVal)
    (hA : ∀ (seq : JsVal) (label : String) (p : JsVal), (label = "Contacts" ∨ label = "Hosts") →
      ∃ p', addRem seq label p = .ok p' ∧ getProp p' k = getProp p k)
    (b : Bool) (seq : JsVal) (label : String) (hl : label = "Contacts" ∨ label = "Hosts")
    (p : JsVal) (log : List Call) (hp : getProp p k = .ok v) :
    ∃ log' p', (if b = true then Eff.invoke addRem seq label p else Eff.pure p) log
        = (log', .ok p') ∧ getProp p' k = .ok v := by
  cases b
  · exact ⟨log, p, rfl, hp⟩
  · obtain ⟨p', h1, h2⟩ := hA seq label p hl
    exact ⟨log ++ [⟨seq, label⟩], p', by simp [Eff.invoke, h1], h2.trans hp⟩

theorem diffContacts_keeps (addRem : AddRem) (k : Name) (v : JsVal)
    (hA : ∀ (seq : JsVal) (label : String) (p : JsVal), (label = "Contacts" ∨ label = "Hosts") →
      ∃ p', addRem seq label p = .ok p' ∧ getProp p' k = getProp p k)
    (form p : JsVal) (log : List Call) (hn : nullish form = false)
    (hp : getProp p k = .ok v) :
    ∃ log' p', diffContacts addRem form p log = (log', .ok p') ∧ getProp p' k = .ok v := by
  rw [diffContacts_eq addRem form p hn]
  exact condInvoke_keeps addRem k v hA _ _ "Contacts" (Or.inl rfl) p log hp

theorem diffHosts_keeps (addRem : AddRem) (k : Name) (v : JsVal)
    (hA : ∀ (seq : JsVal) (label : String) (p : JsVal), (label = "Contacts" ∨ label = "Hosts") →
      ∃ p', addRem seq label p = .ok p' ∧ getProp p' k = getProp p k)
    (form p : JsVal) (log : List Call) (hn : nullish form = false)
    (hp : getProp p k = .ok v) :
    ∃ log' p', diffHosts addRem form p log = (log', .ok p') ∧ getProp p' k = .ok v := by
  rw [diffHosts_eq addRem form p hn]
  exact condInvoke_keeps addRem k v hA _ _ "Hosts" (Or.inr rfl) p log hp

/-- Claim C6: for every `params` with an item, `prepareCreate` returns and
`params.nextId` is then `item['domain:name']`, also when the signed mark is
deleted; and so does `prepareUpdate`, given that the `addRem` of the base
component returns for the two labels and leaves `params.nextId` alone. -/
theorem nextId_is_domain_name (params item : JsVal)
    (hi : getProp params Key.item = .ok item) (hn : nullish item = false) :
    (∀ create : Template, ∃ p', prepareCreate create params = .ok (p', create p') ∧
      getProp p' Key.nextId = getProp item Key.name) ∧
    (∀ (addRem : AddRem) (update : Template),
      (∀ (seq : JsVal) (label : String) (p : JsVal), (label = "Contacts" ∨ label = "Hosts") →
        ∃ p', addRem seq label p = .ok p' ∧ getProp p' Key.nextId = getProp p Key.nextId) →
      ∃ calls p', prepareUpdate addRem update params = (calls, .ok (p', update p')) ∧
        getProp p' Key.nextId = getProp item Key.name) := by
  have hpo := isObject_of_getProp params item Key.item hi hn
  have hnm := getProp_eq_peek item Key.name hn
  have h1 : getProp (poke params Key.nextId (peek item Key.name)) Key.nextId
      = .ok (peek item Key.name) := getProp_poke_same params Key.nextId _ hpo
  constructor
  · intro create
    by_cases hs : looseEqEmptyString (peek item Key.signedMark) = true
    · have hd : ∃ item', deleteProp item Key.signedMark = .ok item' := by
        cases item <;> simp [nullish] at hn <;> simp [deleteProp]
      obtain ⟨item', hd⟩ := hd
      refine ⟨poke (poke params Key.nextId (peek item Key.name)) Key.item item', ?_, ?_⟩
      · simp [prepareCreate, prepareCreateParams, bind, Except.bind, hi, hnm,
          setProp_eq_poke params Key.nextId _ (not_nullish_of_isObject params hpo),
          getProp_eq_peek item Key.signedMark hn, hs, hd, pure, Except.pure]
        rw [setProp_eq_poke (poke params Key.nextId (peek item Key.name)) Key.item item'
          (by rw [nullish_poke]; exact not_nullish_of_isObject params hpo)]
      · rw [getProp_poke_ne _ Key.item Key.nextId _ (by decide), h1, hnm]
    · refine ⟨poke params Key.nextId (peek item Key.name), ?_, ?_⟩
      · simp [prepareCreate, bind, Except.bind,
          prepareCreateParams_kept params item hi hn (by simpa using hs), pure, Except.pure]
      · rw [h1, hnm]
  · intro addRem update hA
    rw [hnm]
    obtain ⟨l2, p2, e2, g2⟩ := diffContacts_keeps addRem Key.nextId _ hA item _ [] hn h1
    have hn2 := nullish_liveForm item p2 hn
    obtain ⟨l3, p3, e3, g3⟩ := diffHosts_keeps addRem Key.nextId _ hA _ p2 l2 hn2 g2
    have hn3 := nullish_liveForm _ p3 hn2
    obtain ⟨l4, p4, e4, g4⟩ := diffHosts_keeps addRem Key.nextId _ hA _ p3 l3 hn3 g3
    obtain ⟨l5, p5, e5, g5⟩ := condInvoke_keeps addRem Key.nextId _ hA
      true (peek (liveForm (liveForm (liveForm item p2) p3) p4) Key.contact) "Contacts"
      (Or.inl rfl) p4 l4 g4
    refine ⟨l5, p5, ?_, g5⟩
    simp only [if_true] at e5
    simp only [prepareUpdate, prepareUpdateParams_eq addRem params item hi hn,
      Eff.bind_of_ok _ _ _ _ _ e2, Eff.bind_of_ok _ _ _ _ _ e3, Eff.bind_of_ok _ _ _ _ _ e4, e5]

theorem sampleWrite_keeps (seq : JsVal) (label : String) (p : JsVal) (k : Name)
    (hne : label ≠ k.text) : getProp (sampleWrite seq label p) k = getProp p k := by
  cases p <;> simp [sampleWrite, getProp, lookupProp_storeProp_ne _ _ _ _ hne]

theorem sampleAddRem_keeps_nextId (seq : JsVal) (label : String) (p : JsVal)
    (hl : label = "Contacts" ∨ label = "Hosts") :
    ∃ p', sampleAddRem seq label p = .ok p' ∧ getProp p' Key.nextId = getProp p Key.nextId := by
  refine ⟨sampleWrite seq label p, rfl, sampleWrite_keeps seq label p Key.nextId ?_⟩
  rcases hl with h | h <;> subst h <;> decide

/-- Claim C6, witness: a create form whose signed mark is deleted, and an
update form with contacts and hosts. -/
theorem nextId_is_domain_name_witness :
    (∃ p', prepareCreate sampleTemplate emptyMarkParams = .ok (p', sampleTemplate p') ∧
      getProp p' Key.nextId = .ok (.str "example.tld")) ∧
    (∃ calls p', prepareUpdate sampleAddRem sampleTemplate contactParams
        = (calls, .ok (p', sampleTemplate p')) ∧
      getProp p' Key.nextId = .ok (.str "example.tld")) :=
  ⟨(nextId_is_domain_name emptyMarkParams
      (.obj [("domain:name", .str "example.tld"), ("smd:encodedSignedMark", .str "")])
      (by decide) (by decide)).1 sampleTemplate,
    (nextId_is_domain_name contactParams
      (.obj [("domain:name", .str "example.tld"),
        ("domain:contact",
          .arr [.obj [("@type", .str "admin"), ("keyValue", .str "crr-admin")]] []),
        ("domain:ns", .obj [("domain:hostObj", .arr [.str "ns1.example.tld"] [])])])
      (by decide) (by decide)).2 sampleAddRem sampleTemplate sampleAddRem_keeps_nextId⟩

/-! ## The duplicated diffs of `prepareUpdate` -/

theorem boundIn_storeProp_same (k : String) (v : JsVal) (ps : List (String × JsVal)) :
    boundIn k (storeProp k v ps) = true := by
  induction ps with
  | nil => simp [storeProp, boundIn]
  | cons p rest ih =>
    obtain ⟨k', v'⟩ := p
    by_cases h : k' = k
    · simp [storeProp, boundIn, h]
    · simp [storeProp, boundIn, h, ih]

theorem boundIn_storeProp_of_bound (k k' : String) (v : JsVal) (ps : List (String × JsVal))
    (hb : boundIn k ps = true) : boundIn k (storeProp k' v ps) = true := by
  induction ps with
  | nil => simp [boundIn] at hb
  | cons p rest ih =>
    obtain ⟨k1, v1⟩ := p
    by_cases h : k1 = k'
    · subst h
      by_cases h2 : k1 = k
      · simp [storeProp, boundIn, h2]
      · simp only [boundIn, h2, if_false] at hb
        simp [storeProp, boundIn, h2, hb]
    · by_cases h2 : k1 = k
      · subst h2
        simp [storeProp, boundIn, h]
      · simp only [boundIn, h2, if_false] at hb
        simp [storeProp, boundIn, h, h2, ih hb]

theorem storeProp_of_bound (k : String) (v : JsVal) (ps : List (String × JsVal))
    (hb : boundIn k ps = true) (hl : lookupProp k ps = v) : storeProp k v ps = ps := by
  induction ps with
  | nil => simp [boundIn] at hb
  | cons p rest ih =>
    obtain ⟨k1, v1⟩ := p
    by_cases h : k1 = k
    · subst h
      simp only [lookupProp, if_true] at hl
      simp [storeProp, hl]
    · simp only [boundIn, h, if_false] at hb
      simp only [lookupProp, h, if_false] at hl
      simp [storeProp, h, ih hb hl]

theorem sampleWrite_idempotent (s : JsVal) (l : String) (p : JsVal) :
    sampleWrite s l (sampleWrite s l p) = sampleWrite s l p := by
  cases p <;> simp [sampleWrite]
  exact storeProp_of_bound _ _ _ (boundIn_storeProp_same _ _ _) (lookupProp_storeProp_same _ _ _)

theorem sampleWrite_frame (s : JsVal) (l : String) (s' : JsVal) (l' : String) (p : JsVal)
    (hne : l ≠ l') :
    sampleWrite s l (sampleWrite s' l' (sampleWrite s l p))
      = sampleWrite s' l' (sampleWrite s l p) := by
  cases p <;> simp [sampleWrite]
  refine storeProp_of_bound _ _ _
    (boundIn_storeProp_of_bound _ _ _ _ (boundIn_storeProp_same _ _ _)) ?_
  rw [lookupProp_storeProp_ne _ _ _ _ (Ne.symm hne), lookupProp_storeProp_same]

theorem sampleWrite_keeps_item (s : JsVal) (l : String) (p : JsVal)
    (hl : l = "Contacts" ∨ l = "Hosts") :
    getProp (sampleWrite s l p) Key.item = getProp p Key.item := by
  refine sampleWrite_keeps s l p Key.item ?_
  rcases hl with h | h <;> subst h <;> decide

/-- Where `domain:contact` is present, the duplicated diffs of `prepareUpdate`
change nothing. Let `addRem` be a total function of its sequence, its label
and `params` that is idempotent, whose write under one label is not undone by
a write under the other, and that leaves `params.item` as it is. Then
`prepareUpdate` returns, and the `params` that it hands to the update template
is the one that the version with each diff computed once produces. -/
theorem prepareUpdate_duplication_harmless (write : JsVal → String → JsVal → JsVal)
    (hidem : ∀ s l p, write s l (write s l p) = write s l p)
    (hframe : ∀ s l s' l' p, l ≠ l' →
      write s l (write s' l' (write s l p)) = write s' l' (write s l p))
    (hitem : ∀ s l p, (l = "Contacts" ∨ l = "Hosts") →
      getProp (write s l p) Key.item = getProp p Key.item)
    (update : Template) (params item : JsVal)
    (hi : getProp params Key.item = .ok item)
    (hc : truthy (peek item Key.contact) = true) :
    ∃ p', (prepareUpdate (fun s l p => .ok (write s l p)) update params).2
        = .ok (p', update p') ∧
      (prepareUpdateOnce (fun s l p => .ok (write s l p)) params []).2 = .ok p' := by
  have hn : nullish item = false := by
    cases h : nullish item
    · rfl
    · rw [peek_of_nullish item Key.contact h] at hc
      simp [truthy] at hc
  have hCH : ("Contacts" : String) ≠ "Hosts" := by decide
  have hi1 : getProp (poke params Key.nextId (peek item Key.name)) Key.item = .ok item := by
    rw [getProp_poke_ne params Key.nextId Key.item _ (by decide)]; exact hi
  have hlive : ∀ p : JsVal, getProp p Key.item = .ok item → liveForm item p = item :=
    fun p hp => liveForm_of_getProp item p hp hn
  have hC : ∀ (s p : JsVal), getProp p Key.item = .ok item →
      getProp (write s "Contacts" p) Key.item = .ok item :=
    fun s p hp => (hitem s "Contacts" p (Or.inl rfl)).trans hp
  have hH : ∀ (s p : JsVal), getProp p Key.item = .ok item →
      getProp (write s "Hosts" p) Key.item = .ok item :=
    fun s p hp => (hitem s "Hosts" p (Or.inr rfl)).trans hp
  have hi2 := hC (peek item Key.contact) _ hi1
  have hl2 := hlive _ hi2
  by_cases hh : truthy (peekPath item [Key.ns, Key.hostObj]) = true
  · have hi3 := hH (peekPath item [Key.ns, Key.hostObj]) _ hi2
    have hl3 := hlive _ hi3
    have hi4 := hH (peekPath item [Key.ns, Key.hostObj]) _ hi3
    have hl4 := hlive _ hi4
    refine ⟨write (peekPath item [Key.ns, Key.hostObj]) "Hosts"
      (write (peek item Key.contact) "Contacts" (poke params Key.nextId (peek item Key.name))),
      ?_, ?_⟩
    · simp only [prepareUpdate, prepareUpdateParams_eq _ params item hi hn,
        diffContacts_eq _ _ _ hn, hc, if_true, Eff.bind, Eff.invoke, hl2,
        diffHosts_eq _ _ _ hn, hh, hl3, hl4]
      rw [hidem, hframe _ _ _ _ _ hCH]
    · simp only [prepareUpdateOnce_eq _ params item hi hn, diffContacts_eq _ _ _ hn, hc, if_true,
        Eff.bind, Eff.invoke, hl2, diffHosts_eq _ _ _ hn, hh]
  · have hh' : truthy (peekPath item [Key.ns, Key.hostObj]) = false := by simpa using hh
    refine ⟨write (peek item Key.contact) "Contacts" (poke params Key.nextId (peek item Key.name)),
      ?_, ?_⟩
    · simp only [prepareUpdate, prepareUpdateParams_eq _ params item hi hn,
        diffContacts_eq _ _ _ hn, hc, if_true, Eff.bind, Eff.invoke, hl2,
        diffHosts_eq _ _ _ hn, hh', Bool.false_eq_true, if_false, Eff.pure]
      rw [hidem]
    · simp only [prepareUpdateOnce_eq _ params item hi hn, diffContacts_eq _ _ _ hn, hc, if_true,
        Eff.bind, Eff.invoke, hl2, diffHosts_eq _ _ _ hn, hh', Bool.false_eq_true, if_false,
        Eff.pure]

/-- Claim C10, the code at the failing input. The `addRem` that stores each
sequence under its label is total and idempotent, writes under its label only
and leaves `params.item` alone; with it, on an update form with no contact,
the `params` that `prepareUpdate` hands to the template is not the one of the
version with each diff computed once: the call of line 162, which has no
guard, has left an entry `Contacts` in it. -/
theorem prepareUpdate_differs_from_once :
    (∀ s l p, sampleWrite s l (sampleWrite s l p) = sampleWrite s l p) ∧
      (∀ s l s' l' p, l ≠ l' →
        sampleWrite s l (sampleWrite s' l' (sampleWrite s l p))
          = sampleWrite s' l' (sampleWrite s l p)) ∧
      (∀ s l p, (l = "Contacts" ∨ l = "Hosts") →
        getProp (sampleWrite s l p) Key.item = getProp p Key.item) ∧
      getProp (.obj [("domain:name", .str "example.tld")]) Key.contact = .ok .undefined ∧
      ((prepareUpdate sampleAddRem sampleTemplate nameOnlyParams).2.map Prod.fst)
        = .ok (.obj [("item", .obj [("domain:name", .str "example.tld")]),
            ("clTrid", .str "abc-123"), ("nextId", .str "example.tld"),
            ("Contacts", .undefined)]) ∧
      (prepareUpdateOnce sampleAddRem nameOnlyParams []).2
        = .ok (.obj [("item", .obj [("domain:name", .str "example.tld")]),
            ("clTrid", .str "abc-123"), ("nextId", .str "example.tld")]) ∧
      ((prepareUpdate sampleAddRem sampleTemplate nameOnlyParams).2.map Prod.fst)
        ≠ (prepareUpdateOnce sampleAddRem nameOnlyParams []).2 :=
  ⟨sampleWrite_idempotent, sampleWrite_frame, sampleWrite_keeps_item, by decide, by decide,
    by decide, by decide⟩

/-! ## `setupEditor` -/

theorem setupEditor_eq (typeCounts objArgs item contacts hosts : JsVal)
    (htc : isObject typeCounts = true)
    (hi : getProp objArgs Key.item = .ok item) (hn : nullish item = false)
    (hc : (if truthy (peek item Key.contact) then getLength (peek item Key.contact)
      else .ok (.num 0)) = .ok contacts)
    (hh : (if truthy (peekPath item [Key.ns, Key.hostObj]) then
      getLength (peekPath item [Key.ns, Key.hostObj]) else .ok (.num 0)) = .ok hosts) :
    setupEditor typeCounts objArgs
      = .ok (poke (poke typeCounts Key.contactCount contacts) Key.hostCount hosts) := by
  have h1 : readPath objArgs [Key.item, Key.contact] = .ok (peek item Key.contact) := by
    simp [readPath, hi, getProp_eq_peek item Key.contact hn]
  have h2 : readPath objArgs [Key.item, Key.ns] = .ok (peek item Key.ns) := by
    simp [readPath, hi, getProp_eq_peek item Key.ns hn]
  have htn := not_nullish_of_isObject typeCounts htc
  have hs1 := setProp_eq_poke typeCounts Key.contactCount contacts htn
  have hs2 := setProp_eq_poke (poke typeCounts Key.contactCount contacts) Key.hostCount hosts
    (by rw [nullish_poke]; exact htn)
  have hpp : peekPath item [Key.ns, Key.hostObj] = peek (peek item Key.ns) Key.hostObj := rfl
  rw [hpp] at hh
  have hu2 : truthy JsVal.undefined = false := rfl
  by_cases htc2 : truthy (peek item Key.contact) = true
  · simp only [htc2, if_true] at hc
    by_cases htn2 : truthy (peek item Key.ns) = true
    · have hg := getProp_eq_peek (peek item Key.ns) Key.hostObj (not_nullish_of_truthy _ htn2)
      by_cases hth : truthy (peek (peek item Key.ns) Key.hostObj) = true
      · simp only [hth, if_true] at hh
        simp [setupEditor, bind, Except.bind, h1, h2, htc2, hc, hs1, htn2, hg, hth, hh, hs2]
      · simp only [hth, Bool.false_eq_true, if_false, Except.ok.injEq] at hh
        subst hh
        simp [setupEditor, bind, Except.bind, pure, Except.pure, h1, h2, htc2, hc, hs1, htn2, hg,
          hth, hs2]
    · have htn2' : truthy (peek item Key.ns) = false := by simpa using htn2
      rw [peek_of_not_truthy (peek item Key.ns) Key.hostObj htn2'] at hh
      simp only [hu2, Bool.false_eq_true, if_false, Except.ok.injEq] at hh
      subst hh
      simp [setupEditor, bind, Except.bind, pure, Except.pure, h1, h2, htc2, hc, hs1, htn2', hs2]
  · simp only [htc2, Bool.false_eq_true, if_false, Except.ok.injEq] at hc
    subst hc
    by_cases htn2 : truthy (peek item Key.ns) = true
    · have hg := getProp_eq_peek (peek item Key.ns) Key.hostObj (not_nullish_of_truthy _ htn2)
      by_cases hth : truthy (peek (peek item Key.ns) Key.hostObj) = true
      · simp only [hth, if_true] at hh
        simp [setupEditor, bind, Except.bind, pure, Except.pure, h1, h2, htc2, hs1, htn2, hg, hth,
          hh, hs2]
      · simp only [hth, Bool.false_eq_true, if_false, Except.ok.injEq] at hh
        subst hh
        simp [setupEditor, bind, Except.bind, pure, Except.pure, h1, h2, htc2, hs1, htn2, hg,
          hth, hs2]
    · have htn2' : truthy (peek item Key.ns) = false := by simpa using htn2
      rw [peek_of_not_truthy (peek item Key.ns) Key.hostObj htn2'] at hh
      simp only [hu2, Bool.false_eq_true, if_false, Except.ok.injEq] at hh
      subst hh
      simp [setupEditor, bind, Except.bind, pure, Except.pure, h1, h2, htc2, hs1, htn2', hs2]

theorem count_ok (v : JsVal) :
    ∃ n, (if truthy v then getLength v else .ok (.num 0)) = .ok n ∧
      (truthy v = false → n = .num 0) ∧
      (∀ xs ps, v = .arr xs ps → n = .num xs.length) := by
  cases v with
  | undefined => exact ⟨.num 0, by simp [truthy], by simp, by simp⟩
  | null => exact ⟨.num 0, by simp [truthy], by simp, by simp⟩
  | bool b =>
    cases b
    · exact ⟨.num 0, by simp [truthy], by simp, by simp⟩
    · exact ⟨.undefined, by simp [truthy, getLength], by simp [truthy], by simp⟩
  | num n =>
    by_cases h : n = 0
    · exact ⟨.num 0, by simp [truthy, h], by simp, by simp⟩
    · exact ⟨.undefined, by simp [truthy, h, getLength], by simp [truthy, h], by simp⟩
  | str s =>
    by_cases h : s = ""
    · exact ⟨.num 0, by simp [truthy, h], by simp, by simp⟩
    · exact ⟨.num (utf16Length s), by simp [truthy, h, getLength], by simp [truthy, h], by simp⟩
  | arr xs ps =>
    refine ⟨.num xs.length, by simp [truthy, getLength], by simp [truthy], ?_⟩
    intro xs' ps' h
    cases h
    rfl
  | obj ps =>
    exact ⟨lookupProp "length" ps, by simp [truthy, getLength], by simp [truthy], by simp⟩

/-- Where the repeatable fields of the item are sequences or absent,
`setupEditor` counts them: `typeCounts['contact']` is the length of
`item['domain:contact']`, or 0 when that is absent (falsy), and
`typeCounts['host']` is the length of `domain:ns.domain:hostObj`, or 0 when
`domain:ns` or its `domain:hostObj` is absent (falsy). -/
theorem setupEditor_counts_sequences (typeCounts objArgs item : JsVal)
    (htc : isObject typeCounts = true)
    (hi : getProp objArgs Key.item = .ok item) (hn : nullish item = false) :
    ∃ tc', setupEditor typeCounts objArgs = .ok tc' ∧
      (truthy (peek item Key.contact) = false →
        getProp tc' Key.contactCount = .ok (.num 0)) ∧
      (∀ xs ps, peek item Key.contact = .arr xs ps →
        getProp tc' Key.contactCount = .ok (.num xs.length)) ∧
      (truthy (peekPath item [Key.ns, Key.hostObj]) = false →
        getProp tc' Key.hostCount = .ok (.num 0)) ∧
      (∀ xs ps, peekPath item [Key.ns, Key.hostObj] = .arr xs ps →
        getProp tc' Key.hostCount = .ok (.num xs.length)) := by
  obtain ⟨c, hc, hc0, hca⟩ := count_ok (peek item Key.contact)
  obtain ⟨h, hh, hh0, hha⟩ := count_ok (peekPath item [Key.ns, Key.hostObj])
  have hg1 : getProp (poke (poke typeCounts Key.contactCount c) Key.hostCount h) Key.contactCount
      = .ok c := by
    rw [getProp_poke_ne _ Key.hostCount Key.contactCount _ (by decide)]
    exact getProp_poke_same typeCounts Key.contactCount c htc
  have hg2 : getProp (poke (poke typeCounts Key.contactCount c) Key.hostCount h) Key.hostCount
      = .ok h :=
    getProp_poke_same _ Key.hostCount h (by rw [isObject_poke]; exact htc)
  refine ⟨_, setupEditor_eq typeCounts objArgs item c h htc hi hn hc hh, ?_, ?_, ?_, ?_⟩
  · intro ht; rw [hg1, hc0 ht]
  · intro xs ps hv; rw [hg1, hca xs ps hv]
  · intro ht; rw [hg2, hh0 ht]
  · intro xs ps hv; rw [hg2, hha xs ps hv]

/-- Claim C7, the code at the failing input: for a fetched domain with one
contact, which the item holds as a mapping (`processItem` wraps a single host
and not a single contact), `setupEditor` returns with `typeCounts['contact']`
set to `undefined`, which is no number, where the claim has the integer count;
the two hosts, a sequence, are counted as 2. -/
theorem setupEditor_single_contact_not_counted :
    getProp oneContactArgs Key.item = .ok (.obj [("domain:name", .str "example.tld"),
        ("domain:contact", .obj [("@type", .str "admin"), ("keyValue", .str "crr-admin")]),
        ("domain:ns", .obj [("domain:hostObj",
          .arr [.str "ns1.example.tld", .str "ns2.example.tld"] [])])]) ∧
      setupEditor (.obj []) oneContactArgs
        = .ok (.obj [("contact", .undefined), ("host", .num 2)]) ∧
      isNumber .undefined = false := by
  decide

end Nomulus
